import Mathlib

/-!
Verification of `data_loading.py`: a loader that concatenates tab-separated
files into one table, and a downcaster that narrows each numeric column's
storage type to the smallest catalog entry whose representable range contains
the column's observed minimum and maximum.

The embedding below follows the source line by line.  Machine integers are
modelled as `Int` with explicit wrapping modulo `2 ^ bits`; floating-point
narrowing of integer-valued cells is modelled exactly as IEEE-754
round-to-nearest-even on integers (a float type with `m` significand bits
stores every integer of magnitude below `2 ^ m` exactly, and rounds larger
integers to the nearest multiple of the local unit in the last place).
Fallible code returns `Except`.
-/

set_option maxRecDepth 8000

deriving instance DecidableEq for Except

namespace RecSys

/-- The numpy/pandas dtypes that occur in the program: the signed integer
widths of `map_int`, `uint64` (an integer dtype whose range exceeds
`int64`), the float widths of `map_float`, and non-numeric `object`. -/
inductive DType where
  | int8 | int16 | int32 | int64 | uint64
  | float16 | float32 | float64
  | object
deriving DecidableEq, Repr

/-- Mirror of `pd.api.types.is_integer_dtype`. -/
def DType.isInteger : DType → Bool
  | .int8 | .int16 | .int32 | .int64 | .uint64 => true
  | _ => false

/-- Mirror of `pd.api.types.is_float_dtype`. -/
def DType.isFloat : DType → Bool
  | .float16 | .float32 | .float64 => true
  | _ => false

/-- Mirror of `pd.api.types.is_numeric_dtype`. -/
def DType.isNumeric : DType → Bool
  | .object => false
  | _ => true

/-- Lower end of the representable range, `np.iinfo(t).min` / `np.finfo(t).min`.
The float bounds are the exact integer values of the largest finite floats:
`finfo(float16).max = 65504`, `finfo(float32).max = 2^128 - 2^104`,
`finfo(float64).max = 2^1024 - 2^971`. -/
def dtypeMin : DType → Int
  | .int8 => -(2 ^ 7)
  | .int16 => -(2 ^ 15)
  | .int32 => -(2 ^ 31)
  | .int64 => -(2 ^ 63)
  | .uint64 => 0
  | .float16 => -65504
  | .float32 => -340282346638528859811704183484516925440
  | .float64 => -179769313486231570814527423731704356798070567525844996598917476803157260780028538760589558632766878171540458953514382464234321326889464182768467546703537516986049910576551282076245490090389328944075868508455133942304583236903222948165808559332123348274797826204144723168738177180919299881250404026184124858368
  | .object => 0

/-- Upper end of the representable range, `np.iinfo(t).max` / `np.finfo(t).max`. -/
def dtypeMax : DType → Int
  | .int8 => 2 ^ 7 - 1
  | .int16 => 2 ^ 15 - 1
  | .int32 => 2 ^ 31 - 1
  | .int64 => 2 ^ 63 - 1
  | .uint64 => 2 ^ 64 - 1
  | .float16 => 65504
  | .float32 => 340282346638528859811704183484516925440
  | .float64 => 179769313486231570814527423731704356798070567525844996598917476803157260780028538760589558632766878171540458953514382464234321326889464182768467546703537516986049910576551282076245490090389328944075868508455133942304583236903222948165808559332123348274797826204144723168738177180919299881250404026184124858368
  | .object => 0

/-- Byte width of a dtype (`numpy` itemsize). -/
def dtypeSize : DType → Nat
  | .int8 => 1
  | .int16 => 2
  | .int32 => 4
  | .int64 => 8
  | .uint64 => 8
  | .float16 => 2
  | .float32 => 4
  | .float64 => 8
  | .object => 8

/-- Two's-complement wraparound of a signed integer cast, as numpy performs
on `astype` to a signed width. -/
def wrapSigned (bits : Nat) (v : Int) : Int :=
  (v + 2 ^ (bits - 1)) % 2 ^ bits - 2 ^ (bits - 1)

/-- Wraparound of an unsigned integer cast. -/
def wrapUnsigned (bits : Nat) (v : Int) : Int :=
  v % 2 ^ bits

/-- Round `v` to the nearest multiple of `2 ^ k`, ties to the even multiple
(the IEEE-754 default rounding used by numpy float casts). -/
def roundEvenMul (k : Nat) (v : Int) : Int :=
  let s : Int := 2 ^ k
  let q := v / s
  let r := v % s
  if 2 * r < s then q * s
  else if s < 2 * r then (q + 1) * s
  else if q % 2 = 0 then q * s else (q + 1) * s

/-- Fuel-bounded binary logarithm, structurally recursive so that it reduces
inside the kernel; with fuel at least `n` it computes the floor of the binary
logarithm of `n` (proved equal to `Nat.log2` below). -/
def natLog2Aux : Nat → Nat → Nat
  | 0, _ => 0
  | fuel + 1, n => if n < 2 then 0 else natLog2Aux fuel (n / 2) + 1

/-- Floor of the binary logarithm. -/
def natLog2 (n : Nat) : Nat :=
  natLog2Aux n n

/-- Casting an integer value into a binary float format with `m` significand
bits (11 for float16, 24 for float32, 53 for float64): integers of magnitude
below `2 ^ m` are exact; a larger integer with `2 ^ p ≤ |v| < 2 ^ (p+1)` is
rounded to the nearest multiple of the spacing `2 ^ (p + 1 - m)`, ties to
even.  Every call in `downcast` is range-checked first, so overflow to
infinity never occurs and is not modelled. -/
def floatCast (m : Nat) (v : Int) : Int :=
  if v.natAbs < 2 ^ m then v
  else roundEvenMul (natLog2 v.natAbs + 1 - m) v

/-- Semantics of `Series.astype(t)` on one stored cell value. -/
def castValue : DType → Int → Int
  | .int8, v => wrapSigned 8 v
  | .int16, v => wrapSigned 16 v
  | .int32, v => wrapSigned 32 v
  | .int64, v => wrapSigned 64 v
  | .uint64, v => wrapUnsigned 64 v
  | .float16, v => floatCast 11 v
  | .float32, v => floatCast 24 v
  | .float64, v => floatCast 53 v
  | .object, v => v

/-- A value a real column of dtype `d` can actually store: the cast fixes it
and it lies inside the dtype's range. -/
def Representable (d : DType) (v : Int) : Prop :=
  castValue d v = v ∧ dtypeMin d ≤ v ∧ v ≤ dtypeMax d

instance (d : DType) (v : Int) : Decidable (Representable d v) := by
  unfold Representable
  infer_instance

/-- One named column of a dataframe: column label, dtype, and the stored
cell values in row order. -/
structure Column where
  name : String
  dtype : DType
  values : List Int
deriving DecidableEq, Repr

/-- A dataframe is its ordered list of columns. -/
abbrev DataFrame := List Column

/-- `Series.min()`: `none` on an empty column (pandas yields NaN, and every
subsequent range comparison on NaN is false). -/
def listMin : List Int → Option Int
  | [] => none
  | v :: vs => some (vs.foldl min v)

/-- `Series.max()`. -/
def listMax : List Int → Option Int
  | [] => none
  | v :: vs => some (vs.foldl max v)

/-- `map_int = {1: np.int8, 2: np.int16, 4: np.int32, 8: np.int64}` as the
dict's (size, dtype) items. -/
def map_int : List (Nat × DType) := [(1, .int8), (2, .int16), (4, .int32), (8, .int64)]

/-- `map_float = {2: np.float16, 4: np.float32, 8: np.float64}`. -/
def map_float : List (Nat × DType) := [(2, .float16), (4, .float32), (8, .float64)]

/-- Ordering used by `sorted(type_map.items())`: ascending size key (dict keys
are unique, so the key alone decides the order). -/
def keyLE (a b : Nat × DType) : Prop := a.1 ≤ b.1

instance : DecidableRel keyLE := fun a b => Nat.decLe a.1 b.1

instance : IsTotal (Nat × DType) keyLE := ⟨fun a b => Nat.le_total a.1 b.1⟩

instance : IsTrans (Nat × DType) keyLE := ⟨fun _ _ _ h h2 => Nat.le_trans h h2⟩

/-- The `for size, dtype in ...` loop body of `get_downcast_type`: return the
first dtype whose representable range contains `[cmin, cmax]` (both bounds
inclusive), else fall through to the `ValueError` carrying the range. -/
def gdtLoop (cmin cmax : Int) : List (Nat × DType) → Except (Int × Int) DType
  | [] => Except.error (cmin, cmax)
  | (_, d) :: rest =>
    if dtypeMin d ≤ cmin ∧ cmax ≤ dtypeMax d then Except.ok d
    else gdtLoop cmin cmax rest

/-- `get_downcast_type(type_map, c_min, c_max)`: iterate
`sorted(type_map.items())` and return the first suitable dtype; the error
value models the raised `ValueError`, carrying the attempted range. -/
def get_downcast_type (type_map : List (Nat × DType)) (cmin cmax : Int) :
    Except (Int × Int) DType :=
  gdtLoop cmin cmax (List.insertionSort keyLE type_map)

/-- Catalog consulted by `downcast` for a column of dtype `d`, following the
branch `is_integer_dtype and not is_float_dtype` / `is_float_dtype`. -/
def dtypeCatalog (d : DType) : List (Nat × DType) :=
  if d.isInteger && !d.isFloat then map_int else map_float

/-- One iteration of the column loop in `downcast`: skip non-numeric columns;
otherwise take the column's min and max, pick a narrower dtype from the
matching catalog and convert, leaving the column unchanged when
`get_downcast_type` fails (the `except` branch) or when the column is empty
(NaN min/max make every range test false, which also ends in the `except`
branch). -/
def downcastCol (c : Column) : Column :=
  if c.dtype.isNumeric then
    match listMin c.values, listMax c.values with
    | some cmin, some cmax =>
      if c.dtype.isInteger && !c.dtype.isFloat then
        match get_downcast_type map_int cmin cmax with
        | Except.ok d => ⟨c.name, d, c.values.map (castValue d)⟩
        | Except.error _ => c
      else if c.dtype.isFloat then
        match get_downcast_type map_float cmin cmax with
        | Except.ok d => ⟨c.name, d, c.values.map (castValue d)⟩
        | Except.error _ => c
      else c
    | _, _ => c
  else c

/-- `downcast(df)`: every column is processed independently in order; the
mutation in place is modelled by returning the updated table. -/
def downcast (df : DataFrame) : DataFrame :=
  df.map downcastCol

/-- A dataframe whose stored values are ones its dtypes can actually hold,
which is true of every dataframe pandas materialises. -/
def WellFormedCol (c : Column) : Prop :=
  c.dtype.isNumeric = true → ∀ v ∈ c.values, Representable c.dtype v

instance (c : Column) : Decidable (WellFormedCol c) := by
  unfold WellFormedCol
  infer_instance

/-- All columns of the dataframe are well formed. -/
def WellFormed (df : DataFrame) : Prop :=
  ∀ c ∈ df, WellFormedCol c

instance (df : DataFrame) : Decidable (WellFormed df) := by
  unfold WellFormed
  infer_instance

/-- A parsed tab-separated file or a concatenation result: column labels, the
row index, and the rows (a missing cell is `none`).
Modelled from the spec: the result of `pd.read_csv(..., delimiter=chr 9)` is
an in-memory table whose first text row supplies the column labels and whose
index is `range(number of rows)`. -/
structure PTable where
  columns : List String
  index : List Nat
  rows : List (List (Option String))
deriving DecidableEq, Repr

/-- Position of a column label in a header, first occurrence. -/
def colIndex : List String → String → Option Nat
  | [], _ => none
  | h :: t, c => if h = c then some 0 else (colIndex t c).map (· + 1)

/-- Cell of `row` under source header `hdr` for requested label `c`; `none`
when the source file lacks the column (the engine fills missing values). -/
def lookupCell (hdr : List String) (row : List (Option String)) (c : String) :
    Option String :=
  match colIndex hdr c with
  | none => none
  | some i => (row.get? i).join

/-- Append the labels of `cs` not already present to `acc`, keeping first
appearance order. -/
def addCols (acc : List String) (cs : List String) : List String :=
  cs.foldl (fun a c => if c ∈ a then a else a ++ [c]) acc

/-- Union of the tables' headers in order of first appearance, the column
result of an outer-join concatenation. -/
def unionHeaders (ts : List PTable) : List String :=
  ts.foldl (fun a t => addCols a t.columns) []

/-- Rearrange one source row under the result header. -/
def reindexRow (hdr : List String) (srcHdr : List String)
    (row : List (Option String)) : List (Option String) :=
  hdr.map (lookupCell srcHdr row)

/-- Modelled from the spec: `pd.concat(dataframes, ignore_index=True)` as
called at line 28 of the source.  An empty argument list raises
`ValueError: No objects to concatenate`; otherwise rows are stacked in list
order under the outer-join header and the result index is reassigned to
`range(total row count)`. -/
def pdConcatIgnoreIndex (ts : List PTable) : Except String PTable :=
  match ts with
  | [] => Except.error "No objects to concatenate"
  | _ :: _ =>
    let hdr := unionHeaders ts
    let rws := ts.flatMap (fun t => t.rows.map (reindexRow hdr t.columns))
    Except.ok ⟨hdr, List.range rws.length, rws⟩

/-- A filesystem, abstracted for `load_data`: a directory path maps to `none`
when `os.path.exists` is false, else to the parsed tables of its files in
`os.listdir` order.
Modelled from the spec: listing, per-file parsing and their ordering live in
the underlying engine; `load_data` only composes them. -/
abbrev FileSystem := String → Option (List PTable)

/-- `load_data(data_path)`: assert the path exists (the failed assertion
message carries the path), parse every listed file, and concatenate with
`ignore_index=True`. -/
def load_data (fs : FileSystem) (data_path : String) : Except String PTable :=
  match fs data_path with
  | none => Except.error ("Data path not found at " ++ data_path)
  | some files => pdConcatIgnoreIndex files

/-!
### Exact-rational refinement of the column model

The integer-cell model above captures every dtype's range behaviour, but a
real float column also holds fractional values.  The definitions below are
the same per-column program over exact rational cells: `downcastColQ` is
`downcastCol` verbatim with `ℚ` in place of `Int`, and `floatCastQ` is
IEEE-754 round-to-nearest-even of a rational into a binary format with `m`
significand bits, exact on the whole normal range (subnormal granularity is
not modelled: every cast in `downcast` is range-checked first and the values
cast here stay far above the subnormal thresholds, and zero is exact).
-/

/-- Floor of a rational as an integer (`Int` division is Euclidean and the
denominator is positive, so this is the floor). -/
def ratFloorInt (q : ℚ) : Int :=
  q.num / (q.den : Int)

/-- Truncation of a rational toward zero, the numpy float-to-integer cast
(`Int.div` is T-division); on integer-valued cells, the only ones an integer
column holds, it is the exact value. -/
def ratTruncInt (q : ℚ) : Int :=
  Int.div q.num (q.den : Int)

/-- `2 ^ k` as a rational for a possibly negative exponent. -/
def pow2Z : Int → ℚ
  | Int.ofNat n => 2 ^ n
  | Int.negSucc n => 1 / 2 ^ (n + 1)

/-- Greatest `e` with `2 ^ e ≤ a`, for positive rational `a`.  For `a ≥ 1`
it is `natLog2 ⌊a⌋` since `2 ^ e ≤ ⌊a⌋ ≤ a < ⌊a⌋ + 1 ≤ 2 ^ (e+1)`.  For
`0 < a < 1`, with `f := natLog2 ⌊a⁻¹⌋` one has `2 ^ f ≤ a⁻¹ < 2 ^ (f+1)`,
hence `2 ^ (-f-1) < a ≤ 2 ^ (-f)`: the exponent is `-f` exactly when
`a = 2 ^ (-f)` and `-f-1` otherwise. -/
def ratExp2 (a : ℚ) : Int :=
  if 1 ≤ a then (natLog2 (ratFloorInt a).toNat : Int)
  else
    let f := natLog2 (ratFloorInt a⁻¹).toNat
    if a * 2 ^ f = 1 then -(f : Int) else -((f : Int) + 1)

/-- Round a rational to the nearest integer, ties to the even integer: with
fractional part below one half round down, above one half round up, and at
exactly one half round to the even neighbour. -/
def roundEvenQ (q : ℚ) : Int :=
  let fl := ratFloorInt q
  let fr := q - (fl : ℚ)
  if 1 / 2 ≤ fr then
    if fr ≤ 1 / 2 then
      if fl % 2 = 0 then fl else fl + 1
    else fl + 1
  else fl

/-- IEEE-754 round-to-nearest-even of a rational into the binary float
format with `m` significand bits: a value of magnitude in
`[2 ^ e, 2 ^ (e+1))` is rounded to the nearest multiple of the spacing
`2 ^ (e + 1 - m)`, ties to the even multiple (even multiple of the spacing
is exactly even significand). -/
def floatCastQ (m : Nat) (q : ℚ) : ℚ :=
  if q = 0 then 0
  else
    let a := if q.num < 0 then -q else q
    let k := ratExp2 a + 1 - (m : Int)
    (roundEvenQ (q / pow2Z k) : ℚ) * pow2Z k

/-- `Series.astype(t)` on one exact rational cell. -/
def castValueQ : DType → ℚ → ℚ
  | .int8, q => ((wrapSigned 8 (ratTruncInt q) : Int) : ℚ)
  | .int16, q => ((wrapSigned 16 (ratTruncInt q) : Int) : ℚ)
  | .int32, q => ((wrapSigned 32 (ratTruncInt q) : Int) : ℚ)
  | .int64, q => ((wrapSigned 64 (ratTruncInt q) : Int) : ℚ)
  | .uint64, q => ((wrapUnsigned 64 (ratTruncInt q) : Int) : ℚ)
  | .float16, q => floatCastQ 11 q
  | .float32, q => floatCastQ 24 q
  | .float64, q => floatCastQ 53 q
  | .object, q => q

/-- A column with exact rational cells. -/
structure ColumnQ where
  name : String
  dtype : DType
  values : List ℚ
deriving DecidableEq, Repr

/-- `Series.min()` over rational cells. -/
def listMinQ : List ℚ → Option ℚ
  | [] => none
  | v :: vs => some (vs.foldl min v)

/-- `Series.max()` over rational cells. -/
def listMaxQ : List ℚ → Option ℚ
  | [] => none
  | v :: vs => some (vs.foldl max v)

/-- The selection loop of `get_downcast_type` comparing the catalog ranges
against rational observed bounds (the comparisons in the source are exact:
the `finfo` bounds are float values and integer-column bounds are compared
as integers). -/
def gdtLoopQ (cmin cmax : ℚ) : List (Nat × DType) → Except (ℚ × ℚ) DType
  | [] => Except.error (cmin, cmax)
  | (_, d) :: rest =>
    if (dtypeMin d : ℚ) ≤ cmin ∧ cmax ≤ (dtypeMax d : ℚ) then Except.ok d
    else gdtLoopQ cmin cmax rest

/-- `get_downcast_type` over rational observed bounds. -/
def get_downcast_typeQ (type_map : List (Nat × DType)) (cmin cmax : ℚ) :
    Except (ℚ × ℚ) DType :=
  gdtLoopQ cmin cmax (List.insertionSort keyLE type_map)

/-- The column loop of `downcast`, verbatim, over exact rational cells. -/
def downcastColQ (c : ColumnQ) : ColumnQ :=
  if c.dtype.isNumeric then
    match listMinQ c.values, listMaxQ c.values with
    | some cmin, some cmax =>
      if c.dtype.isInteger && !c.dtype.isFloat then
        match get_downcast_typeQ map_int cmin cmax with
        | Except.ok d => ⟨c.name, d, c.values.map (castValueQ d)⟩
        | Except.error _ => c
      else if c.dtype.isFloat then
        match get_downcast_typeQ map_float cmin cmax with
        | Except.ok d => ⟨c.name, d, c.values.map (castValueQ d)⟩
        | Except.error _ => c
      else c
    | _, _ => c
  else c

/-- `downcast(df)` over exact rational cells. -/
def downcastQ (df : List ColumnQ) : List ColumnQ :=
  df.map downcastColQ

/-- A rational value a real column of dtype `d` can store exactly. -/
def RepresentableQ (d : DType) (q : ℚ) : Prop :=
  castValueQ d q = q ∧ (dtypeMin d : ℚ) ≤ q ∧ q ≤ (dtypeMax d : ℚ)

instance (d : DType) (q : ℚ) : Decidable (RepresentableQ d q) := by
  unfold RepresentableQ
  infer_instance

/-- A rational-cell column whose stored values its dtype can actually hold. -/
def WellFormedColQ (c : ColumnQ) : Prop :=
  c.dtype.isNumeric = true → ∀ q ∈ c.values, RepresentableQ c.dtype q

instance (c : ColumnQ) : Decidable (WellFormedColQ c) := by
  unfold WellFormedColQ
  infer_instance

/-! ### Basic facts about column minima and maxima -/

lemma foldl_min_le_init (vs : List Int) (a : Int) : vs.foldl min a ≤ a := by
  induction vs generalizing a with
  | nil => exact le_refl a
  | cons v vs ih =>
      calc (v :: vs).foldl min a = vs.foldl min (min a v) := rfl
        _ ≤ min a v := ih (min a v)
        _ ≤ a := min_le_left a v

lemma foldl_min_le_mem (vs : List Int) (a : Int) : ∀ v ∈ vs, vs.foldl min a ≤ v := by
  induction vs generalizing a with
  | nil => intro v hv; cases hv
  | cons w ws ih =>
      intro v hv
      cases hv with
      | head =>
          calc (w :: ws).foldl min a = ws.foldl min (min a w) := rfl
            _ ≤ min a w := foldl_min_le_init ws (min a w)
            _ ≤ w := min_le_right a w
      | tail _ hmem => exact ih (min a w) v hmem

lemma foldl_min_mem (vs : List Int) (a : Int) :
    vs.foldl min a = a ∨ vs.foldl min a ∈ vs := by
  induction vs generalizing a with
  | nil => exact Or.inl rfl
  | cons w ws ih =>
      have h := ih (min a w)
      rcases h with h | h
      · rcases min_choice a w with hc | hc
        · exact Or.inl (by rw [show (w :: ws).foldl min a = ws.foldl min (min a w) from rfl, h, hc])
        · refine Or.inr ?_
          rw [show (w :: ws).foldl min a = ws.foldl min (min a w) from rfl, h, hc]
          exact List.mem_cons_self w ws
      · exact Or.inr (List.mem_cons_of_mem w h)

lemma foldl_max_init_le (vs : List Int) (a : Int) : a ≤ vs.foldl max a := by
  induction vs generalizing a with
  | nil => exact le_refl a
  | cons v vs ih =>
      calc a ≤ max a v := le_max_left a v
        _ ≤ vs.foldl max (max a v) := ih (max a v)
        _ = (v :: vs).foldl max a := rfl

lemma foldl_max_mem_le (vs : List Int) (a : Int) : ∀ v ∈ vs, v ≤ vs.foldl max a := by
  induction vs generalizing a with
  | nil => intro v hv; cases hv
  | cons w ws ih =>
      intro v hv
      cases hv with
      | head =>
          calc w ≤ max a w := le_max_right a w
            _ ≤ ws.foldl max (max a w) := foldl_max_init_le ws (max a w)
            _ = (w :: ws).foldl max a := rfl
      | tail _ hmem => exact ih (max a w) v hmem

lemma foldl_max_mem (vs : List Int) (a : Int) :
    vs.foldl max a = a ∨ vs.foldl max a ∈ vs := by
  induction vs generalizing a with
  | nil => exact Or.inl rfl
  | cons w ws ih =>
      have h := ih (max a w)
      rcases h with h | h
      · rcases max_choice a w with hc | hc
        · exact Or.inl (by rw [show (w :: ws).foldl max a = ws.foldl max (max a w) from rfl, h, hc])
        · refine Or.inr ?_
          rw [show (w :: ws).foldl max a = ws.foldl max (max a w) from rfl, h, hc]
          exact List.mem_cons_self w ws
      · exact Or.inr (List.mem_cons_of_mem w h)

lemma listMin_mem {l : List Int} {m : Int} (h : listMin l = some m) : m ∈ l := by
  cases l with
  | nil => cases h
  | cons v vs =>
      have hm : vs.foldl min v = m := by simpa [listMin] using h
      rcases foldl_min_mem vs v with h2 | h2
      · rw [← hm, h2]; exact List.mem_cons_self v vs
      · rw [← hm]; exact List.mem_cons_of_mem v h2

lemma listMin_le {l : List Int} {m : Int} (h : listMin l = some m) :
    ∀ v ∈ l, m ≤ v := by
  cases l with
  | nil => cases h
  | cons w ws =>
      have hm : ws.foldl min w = m := by simpa [listMin] using h
      intro v hv
      cases hv with
      | head => rw [← hm]; exact foldl_min_le_init ws w
      | tail _ hmem => rw [← hm]; exact foldl_min_le_mem ws w v hmem

lemma listMax_mem {l : List Int} {M : Int} (h : listMax l = some M) : M ∈ l := by
  cases l with
  | nil => cases h
  | cons v vs =>
      have hm : vs.foldl max v = M := by simpa [listMax] using h
      rcases foldl_max_mem vs v with h2 | h2
      · rw [← hm, h2]; exact List.mem_cons_self v vs
      · rw [← hm]; exact List.mem_cons_of_mem v h2

lemma le_listMax {l : List Int} {M : Int} (h : listMax l = some M) :
    ∀ v ∈ l, v ≤ M := by
  cases l with
  | nil => cases h
  | cons w ws =>
      have hm : ws.foldl max w = M := by simpa [listMax] using h
      intro v hv
      cases hv with
      | head => rw [← hm]; exact foldl_max_init_le ws w
      | tail _ hmem => rw [← hm]; exact foldl_max_mem_le ws w v hmem

lemma listMin_eq_none {l : List Int} (h : listMin l = none) : l = [] := by
  cases l with
  | nil => rfl
  | cons v vs => cases h

lemma map_eq_self_of_mem {l : List Int} {f : Int → Int}
    (h : ∀ v ∈ l, f v = v) : l.map f = l := by
  induction l with
  | nil => rfl
  | cons v vs ih =>
      simp only [List.map_cons, h v (List.mem_cons_self v vs),
        ih (fun w hw => h w (List.mem_cons_of_mem v hw))]

/-! ### Integer casts are exact inside the target range -/

lemma wrapSigned_eq_self {bits : Nat} (hb : 1 ≤ bits) {v : Int}
    (h1 : -(2 ^ (bits - 1)) ≤ v) (h2 : v ≤ 2 ^ (bits - 1) - 1) :
    wrapSigned bits v = v := by
  unfold wrapSigned
  have hsplit : (2 : Int) ^ bits = 2 ^ (bits - 1) * 2 := by
    rw [← pow_succ]
    congr 1
    omega
  have h0 : 0 ≤ v + 2 ^ (bits - 1) := by linarith
  have hlt : v + 2 ^ (bits - 1) < 2 ^ bits := by
    rw [hsplit]; linarith
  rw [Int.emod_eq_of_lt h0 hlt]
  ring

lemma wrapUnsigned_eq_self {bits : Nat} {v : Int}
    (h1 : 0 ≤ v) (h2 : v ≤ 2 ^ bits - 1) : wrapUnsigned bits v = v := by
  unfold wrapUnsigned
  exact Int.emod_eq_of_lt h1 (by linarith)

lemma castValue_int_eq_self {d : DType} (hd : d.isInteger = true) {v : Int}
    (h1 : dtypeMin d ≤ v) (h2 : v ≤ dtypeMax d) : castValue d v = v := by
  cases d with
  | int8 =>
      simp only [dtypeMin, dtypeMax] at h1 h2
      exact wrapSigned_eq_self (by norm_num) (by norm_num at h1 ⊢; linarith) (by norm_num at h2 ⊢; linarith)
  | int16 =>
      simp only [dtypeMin, dtypeMax] at h1 h2
      exact wrapSigned_eq_self (by norm_num) (by norm_num at h1 ⊢; linarith) (by norm_num at h2 ⊢; linarith)
  | int32 =>
      simp only [dtypeMin, dtypeMax] at h1 h2
      exact wrapSigned_eq_self (by norm_num) (by norm_num at h1 ⊢; linarith) (by norm_num at h2 ⊢; linarith)
  | int64 =>
      simp only [dtypeMin, dtypeMax] at h1 h2
      exact wrapSigned_eq_self (by norm_num) (by norm_num at h1 ⊢; linarith) (by norm_num at h2 ⊢; linarith)
  | uint64 =>
      simp only [dtypeMin, dtypeMax] at h1 h2
      exact wrapUnsigned_eq_self h1 h2
  | float16 => cases hd
  | float32 => cases hd
  | float64 => cases hd
  | object => cases hd

/-! ### Round-to-nearest-even on multiples of a power of two -/

lemma roundEvenMul_cases (k : Nat) (v : Int) :
    roundEvenMul k v = v / 2 ^ k * 2 ^ k ∨
      roundEvenMul k v = (v / 2 ^ k + 1) * 2 ^ k := by
  simp only [roundEvenMul]
  split_ifs <;> simp

lemma dvd_roundEvenMul (k : Nat) (v : Int) : (2 : Int) ^ k ∣ roundEvenMul k v := by
  rcases roundEvenMul_cases k v with h | h <;> rw [h] <;> exact dvd_mul_left _ _

lemma roundEvenMul_eq_self {k : Nat} {v : Int} (h : (2 : Int) ^ k ∣ v) :
    roundEvenMul k v = v := by
  have hs : (0 : Int) < 2 ^ k := pow_pos (by norm_num) k
  have hr : v % 2 ^ k = 0 := Int.emod_eq_zero_of_dvd h
  simp only [roundEvenMul, hr]
  rw [if_pos (by simpa using hs)]
  exact Int.ediv_mul_cancel h

lemma roundEvenMul_le {k : Nat} {v B : Int} (hvB : v ≤ B)
    (hdvd : (2 : Int) ^ k ∣ B) : roundEvenMul k v ≤ B := by
  have hs : (0 : Int) < 2 ^ k := pow_pos (by norm_num) k
  have hfloor_eq : 2 ^ k * (v / 2 ^ k) = v - v % 2 ^ k := by
    have := Int.ediv_add_emod v (2 ^ k)
    linarith
  have hr0 : 0 ≤ v % 2 ^ k := Int.emod_nonneg v (ne_of_gt hs)
  have hfloor_le : v / 2 ^ k * 2 ^ k ≤ v := by
    rw [mul_comm, hfloor_eq]
    linarith
  have hceil : v % 2 ^ k ≠ 0 → (v / 2 ^ k + 1) * 2 ^ k ≤ B := by
    intro hr
    have h1 : v / 2 ^ k * 2 ^ k < v := by
      rw [mul_comm, hfloor_eq]
      have : 0 < v % 2 ^ k := lt_of_le_of_ne hr0 (Ne.symm hr)
      linarith
    have hlt : v / 2 ^ k * 2 ^ k < B := lt_of_lt_of_le h1 hvB
    have hdvd2 : (2 : Int) ^ k ∣ B - v / 2 ^ k * 2 ^ k :=
      dvd_sub hdvd (dvd_mul_left _ _)
    have hstep := Int.le_of_dvd (by linarith) hdvd2
    linarith
  simp only [roundEvenMul]
  split_ifs with h1 h2 h3
  · exact le_trans hfloor_le hvB
  · refine hceil ?_
    intro hr
    rw [hr] at h2
    have hcon : (2 : Int) ^ k < 0 := by simpa using h2
    linarith
  · exact le_trans hfloor_le hvB
  · refine hceil ?_
    intro hr
    rw [hr] at h1
    exact absurd (by simpa using hs : 2 * (0 : Int) < 2 ^ k) h1

lemma le_roundEvenMul {k : Nat} {v B : Int} (hBv : B ≤ v)
    (hdvd : (2 : Int) ^ k ∣ B) : B ≤ roundEvenMul k v := by
  have hs : (0 : Int) < 2 ^ k := pow_pos (by norm_num) k
  have hfloor_eq : 2 ^ k * (v / 2 ^ k) = v - v % 2 ^ k := by
    have := Int.ediv_add_emod v (2 ^ k)
    linarith
  have hrlt : v % 2 ^ k < 2 ^ k := Int.emod_lt_of_pos v hs
  have hkey : B ≤ v / 2 ^ k * 2 ^ k := by
    by_contra hlt
    push_neg at hlt
    have hdvd2 : (2 : Int) ^ k ∣ B - v / 2 ^ k * 2 ^ k :=
      dvd_sub hdvd (dvd_mul_left _ _)
    have hstep := Int.le_of_dvd (by linarith) hdvd2
    have hv : v < v / 2 ^ k * 2 ^ k + 2 ^ k := by
      rw [mul_comm, hfloor_eq]
      linarith
    linarith
  rcases roundEvenMul_cases k v with h | h
  · rw [h]
    exact hkey
  · rw [h]
    have hexp : (v / 2 ^ k + 1) * 2 ^ k = v / 2 ^ k * 2 ^ k + 2 ^ k := by ring
    rw [hexp]
    linarith

lemma roundEvenBranches (s r q : Int) (hrpos : 0 < r) (hrlt : r < s) :
    (if 2 * (s - r) < s then (-q - 1) * s
     else if s < 2 * (s - r) then (-q - 1 + 1) * s
     else if (-q - 1) % 2 = 0 then (-q - 1) * s else (-q - 1 + 1) * s) =
    -(if 2 * r < s then q * s
      else if s < 2 * r then (q + 1) * s
      else if q % 2 = 0 then q * s else (q + 1) * s) := by
  split_ifs <;> first | (exfalso; omega) | ring1

lemma roundEvenMul_neg (k : Nat) (v : Int) :
    roundEvenMul k (-v) = -roundEvenMul k v := by
  have hs : (0 : Int) < 2 ^ k := pow_pos (by norm_num) k
  by_cases hr : v % 2 ^ k = 0
  · have h1 : (2 : Int) ^ k ∣ v := Int.dvd_of_emod_eq_zero hr
    rw [roundEvenMul_eq_self (dvd_neg.mpr h1), roundEvenMul_eq_self h1]
  · have hr0 : 0 ≤ v % 2 ^ k := Int.emod_nonneg v (ne_of_gt hs)
    have hrpos : 0 < v % 2 ^ k := lt_of_le_of_ne hr0 (Ne.symm hr)
    have hrlt : v % 2 ^ k < 2 ^ k := Int.emod_lt_of_pos v hs
    have heq : v = 2 ^ k * (v / 2 ^ k) + v % 2 ^ k := (Int.ediv_add_emod v (2 ^ k)).symm
    have hmod : (-v) % 2 ^ k = 2 ^ k - v % 2 ^ k := by
      have hrw : -v = (2 ^ k - v % 2 ^ k) + 2 ^ k * (-(v / 2 ^ k) - 1) := by
        linear_combination (-1 : Int) * heq
      rw [hrw, Int.add_mul_emod_self_left]
      exact Int.emod_eq_of_lt (by linarith) (by linarith)
    have hdiv : (-v) / 2 ^ k = -(v / 2 ^ k) - 1 := by
      have h2 := Int.ediv_add_emod (-v) (2 ^ k)
      rw [hmod] at h2
      have h3 : 2 ^ k * ((-v) / 2 ^ k) = 2 ^ k * (-(v / 2 ^ k) - 1) := by
        have hexp : 2 ^ k * (-(v / 2 ^ k) - 1) = -(2 ^ k * (v / 2 ^ k)) - 2 ^ k := by ring
        rw [hexp]
        linarith [h2, heq]
      exact mul_left_cancel₀ (ne_of_gt hs) h3
    simp only [roundEvenMul, hmod, hdiv]
    exact roundEvenBranches (2 ^ k) (v % 2 ^ k) (v / 2 ^ k) hrpos hrlt

/-! ### Binary logarithm facts -/

lemma nat_log2_le_self_pow {a : Nat} (ha : a ≠ 0) : 2 ^ a.log2 ≤ a := by
  rw [Nat.log2_eq_log_two]
  exact Nat.pow_log_le_self 2 ha

lemma nat_lt_pow_log2_succ (a : Nat) : a < 2 ^ (a.log2 + 1) := by
  rw [Nat.log2_eq_log_two]
  exact Nat.lt_pow_succ_log_self (by norm_num) a

lemma nat_log2_mono {a b : Nat} (h : a ≤ b) : a.log2 ≤ b.log2 := by
  rw [Nat.log2_eq_log_two, Nat.log2_eq_log_two]
  exact Nat.log_mono_right h

lemma nat_log2_two_pow (n : Nat) : (2 ^ n).log2 = n := by
  rw [Nat.log2_eq_log_two]
  exact Nat.log_pow (by norm_num) n

lemma nat_log2_eq_of {p a : Nat} (h1 : 2 ^ p ≤ a) (h2 : a < 2 ^ (p + 1)) :
    a.log2 = p := by
  rw [Nat.log2_eq_log_two]
  exact Nat.log_eq_of_pow_le_of_lt_pow h1 h2

lemma natLog2Aux_eq : ∀ fuel n, n ≤ fuel → natLog2Aux fuel n = Nat.log2 n := by
  intro fuel
  induction fuel with
  | zero =>
      intro n hn
      have hn0 : n = 0 := Nat.le_zero.mp hn
      subst hn0
      rw [Nat.log2]
      rfl
  | succ fuel ih =>
      intro n hn
      by_cases h2 : n < 2
      · rw [Nat.log2]
        rw [if_neg (by omega)]
        simp [natLog2Aux, h2]
      · have hdiv : n / 2 ≤ fuel := by
          have := Nat.div_lt_self (by omega : 0 < n) (by omega : 1 < 2)
          omega
        rw [Nat.log2, if_pos (by omega)]
        simp only [natLog2Aux, if_neg h2]
        rw [ih (n / 2) hdiv]

lemma natLog2_eq (n : Nat) : natLog2 n = Nat.log2 n :=
  natLog2Aux_eq n n le_rfl

lemma natLog2_le_self_pow {a : Nat} (ha : a ≠ 0) : 2 ^ natLog2 a ≤ a := by
  rw [natLog2_eq]
  exact nat_log2_le_self_pow ha

lemma lt_pow_natLog2_succ (a : Nat) : a < 2 ^ (natLog2 a + 1) := by
  rw [natLog2_eq]
  exact nat_lt_pow_log2_succ a

lemma natLog2_mono {a b : Nat} (h : a ≤ b) : natLog2 a ≤ natLog2 b := by
  rw [natLog2_eq, natLog2_eq]
  exact nat_log2_mono h

lemma natLog2_two_pow (n : Nat) : natLog2 (2 ^ n) = n := by
  rw [natLog2_eq]
  exact nat_log2_two_pow n

lemma natLog2_eq_of {p a : Nat} (h1 : 2 ^ p ≤ a) (h2 : a < 2 ^ (p + 1)) :
    natLog2 a = p := by
  rw [natLog2_eq]
  exact nat_log2_eq_of h1 h2

lemma dtypeMax_float32_eq : dtypeMax DType.float32 = 2 ^ 128 - 2 ^ 104 := by
  norm_num [dtypeMax]

lemma dtypeMax_float64_eq : dtypeMax DType.float64 = 2 ^ 1024 - 2 ^ 971 := by
  norm_num [dtypeMax]

lemma dtypeMin_float32_eq : dtypeMin DType.float32 = -(2 ^ 128 - 2 ^ 104) := by
  norm_num [dtypeMin]

lemma dtypeMin_float64_eq : dtypeMin DType.float64 = -(2 ^ 1024 - 2 ^ 971) := by
  norm_num [dtypeMin]

/-! ### Facts about the float cast -/

lemma floatCast_eq_self_small {m : Nat} {v : Int} (h : v.natAbs < 2 ^ m) :
    floatCast m v = v := by
  unfold floatCast
  rw [if_pos h]

lemma floatCast_eq_self_dvd {m : Nat} {v : Int}
    (h : (2 : Int) ^ (natLog2 v.natAbs + 1 - m) ∣ v) : floatCast m v = v := by
  unfold floatCast
  split
  · rfl
  · exact roundEvenMul_eq_self h

lemma floatCast_zero (m : Nat) : floatCast m 0 = 0 := by
  unfold floatCast
  rw [if_pos]
  simp only [Int.natAbs_zero]
  exact pow_pos (by norm_num) m

lemma floatCast_neg (m : Nat) (v : Int) : floatCast m (-v) = -floatCast m v := by
  by_cases h : v.natAbs < 2 ^ m
  · rw [floatCast_eq_self_small (by rwa [Int.natAbs_neg]), floatCast_eq_self_small h]
  · unfold floatCast
    rw [Int.natAbs_neg, if_neg h, if_neg h]
    exact roundEvenMul_neg _ v

lemma floatCast_pos_bounds {m : Nat} (hm : 0 < m) {v : Int} (hv : 0 < v)
    (hbig : ¬ v.natAbs < 2 ^ m) :
    (2 : Int) ^ natLog2 v.natAbs ≤ floatCast m v ∧
      floatCast m v ≤ 2 ^ (natLog2 v.natAbs + 1) := by
  have hvna : ((v.natAbs : Int)) = v := Int.natAbs_of_nonneg hv.le
  have hane : v.natAbs ≠ 0 := by
    intro h0
    rw [h0] at hvna
    simp at hvna
    linarith
  have hlow : (2 : Int) ^ natLog2 v.natAbs ≤ v := by
    have hnat : 2 ^ natLog2 v.natAbs ≤ v.natAbs := natLog2_le_self_pow hane
    calc (2 : Int) ^ natLog2 v.natAbs = ((2 ^ natLog2 v.natAbs : Nat) : Int) := by push_cast; ring
      _ ≤ ((v.natAbs : Int)) := by exact_mod_cast hnat
      _ = v := hvna
  have hhigh : v ≤ (2 : Int) ^ (natLog2 v.natAbs + 1) := by
    have hnat : v.natAbs < 2 ^ (natLog2 v.natAbs + 1) := lt_pow_natLog2_succ v.natAbs
    calc v = ((v.natAbs : Int)) := hvna.symm
      _ ≤ ((2 ^ (natLog2 v.natAbs + 1) : Nat) : Int) := by exact_mod_cast hnat.le
      _ = (2 : Int) ^ (natLog2 v.natAbs + 1) := by push_cast; ring
  unfold floatCast
  rw [if_neg hbig]
  constructor
  · exact le_roundEvenMul hlow (pow_dvd_pow 2 (by omega))
  · exact roundEvenMul_le hhigh (pow_dvd_pow 2 (by omega))

lemma floatCast_idem_pos {m : Nat} (hm : 0 < m) {v : Int} (hv : 0 < v) :
    floatCast m (floatCast m v) = floatCast m v := by
  by_cases hsm : v.natAbs < 2 ^ m
  · rw [floatCast_eq_self_small hsm, floatCast_eq_self_small hsm]
  · obtain ⟨hlo, hhi⟩ := floatCast_pos_bounds hm hv hsm
    have hdvd : (2 : Int) ^ (natLog2 v.natAbs + 1 - m) ∣ floatCast m v := by
      unfold floatCast
      rw [if_neg hsm]
      exact dvd_roundEvenMul _ _
    set p := natLog2 v.natAbs with hp
    set w := floatCast m v with hw
    have hwpos : 0 < w := lt_of_lt_of_le (pow_pos (by norm_num) p) hlo
    have hwna : ((w.natAbs : Int)) = w := Int.natAbs_of_nonneg hwpos.le
    by_cases htop : w = 2 ^ (p + 1)
    · apply floatCast_eq_self_dvd
      have hna : w.natAbs = 2 ^ (p + 1) := by
        rw [htop]
        simp [Int.natAbs_pow]
      rw [hna, natLog2_two_pow, htop]
      exact pow_dvd_pow 2 (by omega)
    · apply floatCast_eq_self_dvd
      have hwlt : w < 2 ^ (p + 1) := lt_of_le_of_ne hhi htop
      have hna_lo : 2 ^ p ≤ w.natAbs := by
        have hstep : ((2 ^ p : Nat) : Int) ≤ ((w.natAbs : Int)) := by
          calc ((2 ^ p : Nat) : Int) = (2 : Int) ^ p := by push_cast; ring
            _ ≤ w := hlo
            _ = ((w.natAbs : Int)) := hwna.symm
        exact_mod_cast hstep
      have hna_hi : w.natAbs < 2 ^ (p + 1) := by
        have hstep : ((w.natAbs : Int)) < ((2 ^ (p + 1) : Nat) : Int) := by
          calc ((w.natAbs : Int)) = w := hwna
            _ < (2 : Int) ^ (p + 1) := hwlt
            _ = ((2 ^ (p + 1) : Nat) : Int) := by push_cast; ring
        exact_mod_cast hstep
      have hlog : natLog2 w.natAbs = p := natLog2_eq_of hna_lo hna_hi
      rw [hlog]
      exact hdvd

lemma floatCast_idem (m : Nat) (hm : 0 < m) (v : Int) :
    floatCast m (floatCast m v) = floatCast m v := by
  rcases lt_trichotomy v 0 with hneg | hzero | hpos
  · have hv2 : 0 < -v := by linarith
    have hstep := floatCast_idem_pos hm hv2
    calc floatCast m (floatCast m v) = floatCast m (floatCast m (-(-v))) := by rw [neg_neg]
      _ = floatCast m (-(floatCast m (-v))) := by rw [floatCast_neg]
      _ = -(floatCast m (floatCast m (-v))) := by rw [floatCast_neg]
      _ = -(floatCast m (-v)) := by rw [hstep]
      _ = floatCast m (-(-v)) := (floatCast_neg m (-v)).symm
      _ = floatCast m v := by rw [neg_neg]
  · subst hzero
    rw [floatCast_zero, floatCast_zero]
  · exact floatCast_idem_pos hm hpos

lemma floatCast_abs_le_nonneg {m : Nat} (hm : 0 < m) {B v : Int} (hB : 0 < B)
    (hdvd : (2 : Int) ^ (natLog2 B.natAbs + 1 - m) ∣ B) (hv0 : 0 ≤ v) (hvB : v ≤ B) :
    0 ≤ floatCast m v ∧ floatCast m v ≤ B := by
  by_cases hsm : v.natAbs < 2 ^ m
  · rw [floatCast_eq_self_small hsm]
    exact ⟨hv0, hvB⟩
  · have hna : v.natAbs ≤ B.natAbs := by
      have h1 : ((v.natAbs : Int)) = v := Int.natAbs_of_nonneg hv0
      have h2 : ((B.natAbs : Int)) = B := Int.natAbs_of_nonneg hB.le
      have hstep : ((v.natAbs : Int)) ≤ ((B.natAbs : Int)) := by
        rw [h1, h2]
        exact hvB
      exact_mod_cast hstep
    have hplog : natLog2 v.natAbs ≤ natLog2 B.natAbs := natLog2_mono hna
    have hdvd2 : (2 : Int) ^ (natLog2 v.natAbs + 1 - m) ∣ B :=
      dvd_trans (pow_dvd_pow 2 (by omega)) hdvd
    unfold floatCast
    rw [if_neg hsm]
    exact ⟨le_roundEvenMul hv0 (dvd_zero _), roundEvenMul_le hvB hdvd2⟩

lemma floatCast_abs_le {m : Nat} (hm : 0 < m) {B v : Int} (hB : 0 < B)
    (hdvd : (2 : Int) ^ (natLog2 B.natAbs + 1 - m) ∣ B)
    (h1 : -B ≤ v) (h2 : v ≤ B) : -B ≤ floatCast m v ∧ floatCast m v ≤ B := by
  rcases le_or_lt 0 v with hv0 | hv0
  · obtain ⟨ha, hb⟩ := floatCast_abs_le_nonneg hm hB hdvd hv0 h2
    exact ⟨by linarith, hb⟩
  · have hv2 : 0 ≤ -v := by linarith
    have hvB : -v ≤ B := by linarith
    obtain ⟨ha, hb⟩ := floatCast_abs_le_nonneg hm hB hdvd hv2 hvB
    have hneg : floatCast m v = -floatCast m (-v) := by
      calc floatCast m v = floatCast m (-(-v)) := by rw [neg_neg]
        _ = -floatCast m (-v) := floatCast_neg m (-v)
    rw [hneg]
    constructor <;> linarith

lemma lt_floatCast_of_lt {m : Nat} (hm : 0 < m) {B v : Int} (hB : 0 ≤ B)
    (hBm : B < 2 ^ m) (h : B < v) : B < floatCast m v := by
  by_cases hsm : v.natAbs < 2 ^ m
  · rwa [floatCast_eq_self_small hsm]
  · have hvpos : 0 < v := lt_of_le_of_lt hB h
    have hmp : m ≤ natLog2 v.natAbs := by
      have hge : 2 ^ m ≤ v.natAbs := le_of_not_lt hsm
      have hmono := natLog2_mono hge
      rwa [natLog2_two_pow] at hmono
    have hlo := (floatCast_pos_bounds hm hvpos hsm).1
    have hpow : (2 : Int) ^ m ≤ (2 : Int) ^ natLog2 v.natAbs :=
      pow_le_pow_right₀ (by norm_num) hmp
    linarith

lemma floatCast_lt_of_lt_neg {m : Nat} (hm : 0 < m) {B v : Int} (hB : 0 ≤ B)
    (hBm : B < 2 ^ m) (h : v < -B) : floatCast m v < -B := by
  have h2 : B < -v := by linarith
  have hlt := lt_floatCast_of_lt hm hB hBm h2
  have hneg : floatCast m (-v) = -floatCast m v := floatCast_neg m v
  rw [hneg] at hlt
  linarith

/-! ### The type-selection loop -/

lemma gdtLoop_ok_fits {cmin cmax : Int} {l : List (Nat × DType)} {d : DType}
    (h : gdtLoop cmin cmax l = Except.ok d) :
    dtypeMin d ≤ cmin ∧ cmax ≤ dtypeMax d := by
  induction l with
  | nil => cases h
  | cons e rest ih =>
      obtain ⟨s0, d0⟩ := e
      by_cases hc : dtypeMin d0 ≤ cmin ∧ cmax ≤ dtypeMax d0
      · have hd : d0 = d := by
          simpa [gdtLoop, if_pos hc] using h
        subst hd
        exact hc
      · exact ih (by simpa [gdtLoop, if_neg hc] using h)

lemma gdtLoop_ok_first {cmin cmax : Int} {l : List (Nat × DType)} {d : DType}
    (hs : List.Sorted keyLE l) (h : gdtLoop cmin cmax l = Except.ok d) :
    ∃ s, (s, d) ∈ l ∧ (dtypeMin d ≤ cmin ∧ cmax ≤ dtypeMax d) ∧
      ∀ s2 d2, (s2, d2) ∈ l → dtypeMin d2 ≤ cmin ∧ cmax ≤ dtypeMax d2 → s ≤ s2 := by
  induction l with
  | nil => cases h
  | cons e rest ih =>
      obtain ⟨s0, d0⟩ := e
      rw [List.sorted_cons] at hs
      obtain ⟨hall, hrest⟩ := hs
      by_cases hc : dtypeMin d0 ≤ cmin ∧ cmax ≤ dtypeMax d0
      · have hd : d0 = d := by
          simpa [gdtLoop, if_pos hc] using h
        subst hd
        refine ⟨s0, List.mem_cons_self _ _, hc, ?_⟩
        intro s2 d2 hmem hfits
        rcases List.mem_cons.mp hmem with heq | hmem2
        · injection heq with e1 e2
          omega
        · exact hall (s2, d2) hmem2
      · have h2 : gdtLoop cmin cmax rest = Except.ok d := by
          simpa [gdtLoop, if_neg hc] using h
        obtain ⟨s, hmem, hfits, hmin⟩ := ih hrest h2
        refine ⟨s, List.mem_cons_of_mem _ hmem, hfits, ?_⟩
        intro s2 d2 hmem2 hfits2
        rcases List.mem_cons.mp hmem2 with heq | hmem3
        · exfalso
          apply hc
          injection heq with e1 e2
          exact e2 ▸ hfits2
        · exact hmin s2 d2 hmem3 hfits2

lemma gdtLoop_error_spec {cmin cmax : Int} {l : List (Nat × DType)} {e : Int × Int}
    (h : gdtLoop cmin cmax l = Except.error e) :
    e = (cmin, cmax) ∧
      ∀ s d, (s, d) ∈ l → ¬(dtypeMin d ≤ cmin ∧ cmax ≤ dtypeMax d) := by
  induction l with
  | nil =>
      have he : (cmin, cmax) = e := by
        simpa [gdtLoop] using h
      exact ⟨he.symm, fun s d h2 => absurd h2 (by simp)⟩
  | cons e2 rest ih =>
      obtain ⟨s0, d0⟩ := e2
      by_cases hc : dtypeMin d0 ≤ cmin ∧ cmax ≤ dtypeMax d0
      · simp [gdtLoop, if_pos hc] at h
      · have h2 : gdtLoop cmin cmax rest = Except.error e := by
          simpa [gdtLoop, if_neg hc] using h
        obtain ⟨he, hall⟩ := ih h2
        refine ⟨he, ?_⟩
        intro s d hmem
        rcases List.mem_cons.mp hmem with heq | hm
        · injection heq with u1 u2
          exact u2 ▸ hc
        · exact hall s d hm

lemma gdtLoop_error_complete {cmin cmax : Int} {l : List (Nat × DType)}
    (h : ∀ s d, (s, d) ∈ l → ¬(dtypeMin d ≤ cmin ∧ cmax ≤ dtypeMax d)) :
    gdtLoop cmin cmax l = Except.error (cmin, cmax) := by
  induction l with
  | nil => rfl
  | cons e rest ih =>
      obtain ⟨s0, d0⟩ := e
      have hc := h s0 d0 (List.mem_cons_self _ _)
      simp only [gdtLoop, if_neg hc]
      exact ih (fun s d hm => h s d (List.mem_cons_of_mem _ hm))

lemma get_downcast_type_ok_fits {tm : List (Nat × DType)} {cmin cmax : Int}
    {d : DType} (h : get_downcast_type tm cmin cmax = Except.ok d) :
    dtypeMin d ≤ cmin ∧ cmax ≤ dtypeMax d :=
  gdtLoop_ok_fits h

/-! ### Evaluating the selection on the two concrete catalogs -/

lemma insertionSort_map_int : List.insertionSort keyLE map_int = map_int := by
  rfl

lemma insertionSort_map_float : List.insertionSort keyLE map_float = map_float := by
  rfl

lemma get_int_eval (a b : Int) : get_downcast_type map_int a b =
    (if -(2 ^ 7) ≤ a ∧ b ≤ 2 ^ 7 - 1 then Except.ok DType.int8
     else if -(2 ^ 15) ≤ a ∧ b ≤ 2 ^ 15 - 1 then Except.ok DType.int16
     else if -(2 ^ 31) ≤ a ∧ b ≤ 2 ^ 31 - 1 then Except.ok DType.int32
     else if -(2 ^ 63) ≤ a ∧ b ≤ 2 ^ 63 - 1 then Except.ok DType.int64
     else Except.error (a, b)) := by
  unfold get_downcast_type
  rw [insertionSort_map_int]
  simp only [map_int, gdtLoop, dtypeMin, dtypeMax]

lemma get_float_eval (a b : Int) : get_downcast_type map_float a b =
    (if -65504 ≤ a ∧ b ≤ 65504 then Except.ok DType.float16
     else if -340282346638528859811704183484516925440 ≤ a ∧
         b ≤ 340282346638528859811704183484516925440 then Except.ok DType.float32
     else if -179769313486231570814527423731704356798070567525844996598917476803157260780028538760589558632766878171540458953514382464234321326889464182768467546703537516986049910576551282076245490090389328944075868508455133942304583236903222948165808559332123348274797826204144723168738177180919299881250404026184124858368 ≤ a ∧
         b ≤ 179769313486231570814527423731704356798070567525844996598917476803157260780028538760589558632766878171540458953514382464234321326889464182768467546703537516986049910576551282076245490090389328944075868508455133942304583236903222948165808559332123348274797826204144723168738177180919299881250404026184124858368 then Except.ok DType.float64
     else Except.error (a, b)) := by
  unfold get_downcast_type
  rw [insertionSort_map_float]
  simp only [map_float, gdtLoop, dtypeMin, dtypeMax]

/-! ### Dtype classification helpers -/

lemma isInteger_isNumeric {d : DType} (h : d.isInteger = true) :
    d.isNumeric = true := by
  cases d <;> simp_all [DType.isInteger, DType.isNumeric]

lemma isFloat_isNumeric {d : DType} (h : d.isFloat = true) :
    d.isNumeric = true := by
  cases d <;> simp_all [DType.isFloat, DType.isNumeric]

lemma isFloat_not_isInteger {d : DType} (h : d.isFloat = true) :
    d.isInteger = false := by
  cases d <;> simp_all [DType.isFloat, DType.isInteger]

lemma numeric_cases {d : DType} (h : d.isNumeric = true) :
    d.isInteger = true ∨ d.isFloat = true := by
  cases d <;> simp_all [DType.isNumeric, DType.isInteger, DType.isFloat]

/-! ### Unfolding the column loop branch by branch -/

lemma downcastCol_not_numeric {c : Column} (h : c.dtype.isNumeric = false) :
    downcastCol c = c := by
  simp [downcastCol, h]

lemma downcastCol_nil {c : Column} (h : c.values = []) : downcastCol c = c := by
  simp [downcastCol, h, listMin, listMax]

lemma downcastCol_int_ok {c : Column} {cmin cmax : Int} {d : DType}
    (hint : c.dtype.isInteger = true)
    (hmin : listMin c.values = some cmin) (hmax : listMax c.values = some cmax)
    (hok : get_downcast_type map_int cmin cmax = Except.ok d) :
    downcastCol c = ⟨c.name, d, c.values.map (castValue d)⟩ := by
  have hnum := isInteger_isNumeric hint
  have hfl : c.dtype.isFloat = false := by
    cases hd : c.dtype <;> simp_all [DType.isInteger, DType.isFloat]
  simp [downcastCol, hnum, hint, hfl, hmin, hmax, hok]

lemma downcastCol_int_err {c : Column} {cmin cmax : Int} {e : Int × Int}
    (hint : c.dtype.isInteger = true)
    (hmin : listMin c.values = some cmin) (hmax : listMax c.values = some cmax)
    (herr : get_downcast_type map_int cmin cmax = Except.error e) :
    downcastCol c = c := by
  have hnum := isInteger_isNumeric hint
  have hfl : c.dtype.isFloat = false := by
    cases hd : c.dtype <;> simp_all [DType.isInteger, DType.isFloat]
  simp [downcastCol, hnum, hint, hfl, hmin, hmax, herr]

lemma downcastCol_float_ok {c : Column} {cmin cmax : Int} {d : DType}
    (hfl : c.dtype.isFloat = true)
    (hmin : listMin c.values = some cmin) (hmax : listMax c.values = some cmax)
    (hok : get_downcast_type map_float cmin cmax = Except.ok d) :
    downcastCol c = ⟨c.name, d, c.values.map (castValue d)⟩ := by
  have hnum := isFloat_isNumeric hfl
  have hint := isFloat_not_isInteger hfl
  simp [downcastCol, hnum, hint, hfl, hmin, hmax, hok]

lemma downcastCol_float_err {c : Column} {cmin cmax : Int} {e : Int × Int}
    (hfl : c.dtype.isFloat = true)
    (hmin : listMin c.values = some cmin) (hmax : listMax c.values = some cmax)
    (herr : get_downcast_type map_float cmin cmax = Except.error e) :
    downcastCol c = c := by
  have hnum := isFloat_isNumeric hfl
  have hint := isFloat_not_isInteger hfl
  simp [downcastCol, hnum, hint, hfl, hmin, hmax, herr]

lemma castValue_map_id {d : DType} (hd : d.isInteger = true) {l : List Int}
    {cmin cmax : Int}
    (hmin : listMin l = some cmin) (hmax : listMax l = some cmax)
    (h1 : dtypeMin d ≤ cmin) (h2 : cmax ≤ dtypeMax d) :
    l.map (castValue d) = l := by
  apply map_eq_self_of_mem
  intro v hv
  exact castValue_int_eq_self hd
    (le_trans h1 (listMin_le hmin v hv))
    (le_trans (le_listMax hmax v hv) h2)

/-! ### Loader helper lemmas -/

lemma foldl_const {α β : Type} (g : α → β → α) (a : α) (l : List β)
    (h : ∀ x ∈ l, g a x = a) : l.foldl g a = a := by
  induction l with
  | nil => rfl
  | cons x xs ih =>
      rw [List.foldl_cons, h x (List.mem_cons_self x xs)]
      exact ih (fun y hy => h y (List.mem_cons_of_mem x hy))

lemma addCols_of_subset {acc cs : List String} (h : ∀ c ∈ cs, c ∈ acc) :
    addCols acc cs = acc := by
  induction cs with
  | nil => rfl
  | cons c cs ih =>
      unfold addCols
      rw [List.foldl_cons, if_pos (h c (List.mem_cons_self c cs))]
      exact ih (fun x hx => h x (List.mem_cons_of_mem c hx))

lemma addCols_fresh {cs : List String} : ∀ {acc : List String}, cs.Nodup →
    (∀ c ∈ cs, c ∉ acc) → addCols acc cs = acc ++ cs := by
  induction cs with
  | nil =>
      intro acc _ _
      simp [addCols]
  | cons c cs ih =>
      intro acc hnd hfr
      rw [List.nodup_cons] at hnd
      unfold addCols
      rw [List.foldl_cons, if_neg (hfr c (List.mem_cons_self c cs))]
      have hrec : addCols (acc ++ [c]) cs = (acc ++ [c]) ++ cs := by
        refine ih hnd.2 ?_
        intro x hx
        rw [List.mem_append]
        rintro (hca | hcb)
        · exact hfr x (List.mem_cons_of_mem c hx) hca
        · rw [List.mem_singleton] at hcb
          subst hcb
          exact hnd.1 hx
      calc List.foldl (fun a c2 => if c2 ∈ a then a else a ++ [c2]) (acc ++ [c]) cs
          = addCols (acc ++ [c]) cs := rfl
        _ = (acc ++ [c]) ++ cs := hrec
        _ = acc ++ c :: cs := by simp

lemma unionHeaders_const {H : List String} {f0 : PTable} {ts : List PTable}
    (hnd : H.Nodup) (hf0 : f0.columns = H) (hcols : ∀ f ∈ f0 :: ts, f.columns = H) :
    unionHeaders (f0 :: ts) = H := by
  unfold unionHeaders
  rw [List.foldl_cons]
  have h1 : addCols [] f0.columns = H := by
    rw [hf0]
    rw [addCols_fresh hnd (by simp)]
    simp
  rw [h1]
  apply foldl_const
  intro t ht
  rw [hcols t (List.mem_cons_of_mem f0 ht)]
  exact addCols_of_subset (fun c hc => hc)

lemma lookupCell_cons_self (c : String) (t : List String) (x : Option String)
    (xs : List (Option String)) : lookupCell (c :: t) (x :: xs) c = x := by
  simp [lookupCell, colIndex]

lemma lookupCell_cons_ne {hd c : String} (t : List String) (x : Option String)
    (xs : List (Option String)) (h : hd ≠ c) :
    lookupCell (hd :: t) (x :: xs) c = lookupCell t xs c := by
  simp only [lookupCell, colIndex, if_neg h]
  cases hix : colIndex t c <;> simp [hix]

lemma reindexRow_id {hdr : List String} : ∀ {row : List (Option String)},
    hdr.Nodup → row.length = hdr.length → reindexRow hdr hdr row = row := by
  induction hdr with
  | nil =>
      intro row _ hlen
      cases row with
      | nil => rfl
      | cons x xs => simp at hlen
  | cons c t ih =>
      intro row hnd hlen
      cases row with
      | nil => simp at hlen
      | cons x xs =>
          rw [List.nodup_cons] at hnd
          have hlen2 : xs.length = t.length := by
            simpa using hlen
          unfold reindexRow
          rw [List.map_cons, lookupCell_cons_self]
          have htail : t.map (lookupCell (c :: t) (x :: xs)) =
              t.map (lookupCell t xs) := by
            apply List.map_congr_left
            intro a ha
            have hne : c ≠ a := fun hca => hnd.1 (hca ▸ ha)
            exact lookupCell_cons_ne t x xs hne
          rw [htail]
          have := ih hnd.2 hlen2
          unfold reindexRow at this
          rw [this]

lemma flatMap_congr_mem {α β : Type} {l : List α} {f g : α → List β}
    (h : ∀ a ∈ l, f a = g a) : l.flatMap f = l.flatMap g := by
  induction l with
  | nil => rfl
  | cons a l ih =>
      simp only [List.flatMap_cons, h a (List.mem_cons_self a l),
        ih (fun x hx => h x (List.mem_cons_of_mem a hx))]

lemma length_flatMap_rows {α : Type} (l : List α) (f : α → List (List (Option String))) :
    (l.flatMap f).length = (l.map (fun a => (f a).length)).sum := by
  induction l with
  | nil => rfl
  | cons a l ih => simp [List.flatMap_cons, ih]

/-! ### Claim theorems -/

/-- C1: for every size-to-type mapping and every `[cmin, cmax]` pair,
`get_downcast_type` walks the entries in ascending size order and returns the
first dtype whose representable range satisfies `type_min ≤ cmin` and
`cmax ≤ type_max`, both boundaries inclusive — so every strictly smaller
entry fails the range test; when no entry qualifies it fails with the
no-suitable-type error carrying the attempted range, and conversely the error
arises only in that case.  The embedding is a pure function, so no mutation
or I/O occurs. -/
theorem get_downcast_type_first_match (tm : List (Nat × DType)) (cmin cmax : Int) :
    (∀ d, get_downcast_type tm cmin cmax = Except.ok d →
       ∃ s, (s, d) ∈ tm ∧ (dtypeMin d ≤ cmin ∧ cmax ≤ dtypeMax d) ∧
         ∀ s2 d2, (s2, d2) ∈ tm → dtypeMin d2 ≤ cmin ∧ cmax ≤ dtypeMax d2 → s ≤ s2) ∧
    (∀ e, get_downcast_type tm cmin cmax = Except.error e →
       e = (cmin, cmax) ∧
         ∀ s d, (s, d) ∈ tm → ¬(dtypeMin d ≤ cmin ∧ cmax ≤ dtypeMax d)) ∧
    ((∀ s d, (s, d) ∈ tm → ¬(dtypeMin d ≤ cmin ∧ cmax ≤ dtypeMax d)) →
       get_downcast_type tm cmin cmax = Except.error (cmin, cmax)) := by
  have hperm := List.perm_insertionSort keyLE tm
  refine ⟨?_, ?_, ?_⟩
  · intro d h
    obtain ⟨s, hmem, hfits, hmin⟩ :=
      gdtLoop_ok_first (List.sorted_insertionSort keyLE tm) h
    exact ⟨s, hperm.mem_iff.mp hmem, hfits,
      fun s2 d2 hm2 hf2 => hmin s2 d2 (hperm.mem_iff.mpr hm2) hf2⟩
  · intro e h
    obtain ⟨he, hall⟩ := gdtLoop_error_spec h
    exact ⟨he, fun s d hm => hall s d (hperm.mem_iff.mpr hm)⟩
  · intro hall
    exact gdtLoop_error_complete (fun s d hm => hall s d (hperm.mem_iff.mp hm))

/-- Witness for C1: the characterisation instantiated on the integer catalog
and the concrete range `[-100, 100]`. -/
theorem get_downcast_type_first_match_witness :
    (∀ d, get_downcast_type map_int (-100) 100 = Except.ok d →
       ∃ s, (s, d) ∈ map_int ∧ (dtypeMin d ≤ -100 ∧ 100 ≤ dtypeMax d) ∧
         ∀ s2 d2, (s2, d2) ∈ map_int → dtypeMin d2 ≤ -100 ∧ 100 ≤ dtypeMax d2 → s ≤ s2) ∧
    (∀ e, get_downcast_type map_int (-100) 100 = Except.error e →
       e = (-100, 100) ∧
         ∀ s d, (s, d) ∈ map_int → ¬(dtypeMin d ≤ -100 ∧ 100 ≤ dtypeMax d)) ∧
    ((∀ s d, (s, d) ∈ map_int → ¬(dtypeMin d ≤ -100 ∧ 100 ≤ dtypeMax d)) →
       get_downcast_type map_int (-100) 100 = Except.error (-100, 100)) :=
  get_downcast_type_first_match map_int (-100) 100

/-- C8: a column of integers ranging over `[-100, 100]` is downcast to the
1-byte signed integer type, and a column ranging over `[0, 1000000]` is
downcast to the 4-byte integer type; values are unchanged. -/
theorem downcast_integer_examples :
    downcast [⟨"small", DType.int64, [-100, 100]⟩, ⟨"large", DType.int64, [0, 1000000]⟩] =
      [⟨"small", DType.int8, [-100, 100]⟩, ⟨"large", DType.int32, [0, 1000000]⟩] := by
  decide

/-- C7: when the path does not exist, `load_data` fails with the
path-not-found condition carrying the path, and the outcome does not depend
on any file contents — the same failure results under any other filesystem in
which the path is also missing, so no file is read and no partial table is
returned. -/
theorem load_data_missing_path (fs fs2 : FileSystem) (path : String)
    (h : fs path = none) (h2 : fs2 path = none) :
    load_data fs path = Except.error ("Data path not found at " ++ path) ∧
    load_data fs path = load_data fs2 path := by
  constructor
  · simp [load_data, h]
  · simp [load_data, h, h2]

/-- Witness for C7 at the constant empty filesystem. -/
theorem load_data_missing_path_witness :
    ((fun _ => none : FileSystem) "missing" = none) ∧
    (load_data (fun _ => none) "missing" =
        Except.error ("Data path not found at " ++ "missing") ∧
      load_data (fun _ => none) "missing" = load_data (fun _ => none) "missing") :=
  ⟨rfl, load_data_missing_path (fun _ => none) (fun _ => none) "missing" rfl rfl⟩

/-- C10: an existing directory with no entries makes `load_data` fail from
the concatenation step with the no-objects-to-concatenate condition; an `ok`
table — in particular an empty one — is never produced. -/
theorem load_data_empty_dir (fs : FileSystem) (path : String)
    (h : fs path = some []) :
    load_data fs path = Except.error "No objects to concatenate" ∧
    ∀ T, load_data fs path ≠ Except.ok T := by
  have hmain : load_data fs path = Except.error "No objects to concatenate" := by
    simp [load_data, h, pdConcatIgnoreIndex]
  refine ⟨hmain, ?_⟩
  intro T hT
  rw [hmain] at hT
  cases hT

/-- Witness for C10 at a filesystem holding one empty directory. -/
theorem load_data_empty_dir_witness :
    ((fun _ => some [] : FileSystem) "empty" = some []) ∧
    (load_data (fun _ => some []) "empty" =
        Except.error "No objects to concatenate" ∧
      ∀ T, load_data (fun _ => some []) "empty" ≠ Except.ok T) :=
  ⟨rfl, load_data_empty_dir (fun _ => some []) "empty" rfl⟩

/-- C6: for a directory of well-formed tab-separated files with identical
column sets, the loaded table's columns match the first file's header, the
rows are the files' rows stacked in listing order, the row count is the sum
of the per-file row counts, and the row index is reassigned to a gapless
sequential range. -/
theorem load_data_concat_shape (fs : FileSystem) (path : String)
    (f0 : PTable) (rest : List PTable)
    (hfs : fs path = some (f0 :: rest))
    (hnd : f0.columns.Nodup)
    (hcols : ∀ f ∈ f0 :: rest, f.columns = f0.columns)
    (hrows : ∀ f ∈ f0 :: rest, ∀ r ∈ f.rows, r.length = f.columns.length) :
    ∃ T, load_data fs path = Except.ok T ∧
      T.columns = f0.columns ∧
      T.rows = (f0 :: rest).flatMap PTable.rows ∧
      T.rows.length = ((f0 :: rest).map (fun f => f.rows.length)).sum ∧
      T.index = List.range T.rows.length := by
  have hhdr : unionHeaders (f0 :: rest) = f0.columns :=
    unionHeaders_const hnd rfl hcols
  have hrws : (f0 :: rest).flatMap
      (fun t => t.rows.map (reindexRow (unionHeaders (f0 :: rest)) t.columns)) =
      (f0 :: rest).flatMap PTable.rows := by
    apply flatMap_congr_mem
    intro t ht
    have hcolt : t.columns = f0.columns := hcols t ht
    rw [hhdr, hcolt]
    have hid : t.rows.map (reindexRow f0.columns f0.columns) = t.rows.map id := by
      apply List.map_congr_left
      intro r hr
      have hrl : r.length = f0.columns.length := by
        rw [← hcolt]
        exact hrows t ht r hr
      exact reindexRow_id hnd hrl
    rw [hid, List.map_id]
  refine ⟨⟨unionHeaders (f0 :: rest),
      List.range ((f0 :: rest).flatMap
        (fun t => t.rows.map (reindexRow (unionHeaders (f0 :: rest)) t.columns))).length,
      (f0 :: rest).flatMap
        (fun t => t.rows.map (reindexRow (unionHeaders (f0 :: rest)) t.columns))⟩,
    ?_, ?_, ?_, ?_, ?_⟩
  · simp only [load_data, hfs, pdConcatIgnoreIndex]
  · exact hhdr
  · exact hrws
  · rw [hrws]
    exact length_flatMap_rows (f0 :: rest) PTable.rows
  · rfl

/-- Two concrete parsed files over the same header, used as the C6 witness. -/
def fileA : PTable :=
  ⟨["user", "item"], [0, 1], [[some "1", some "2"], [some "3", some "4"]]⟩

/-- Second concrete parsed file for the C6 witness. -/
def fileB : PTable :=
  ⟨["user", "item"], [0], [[some "5", some "6"]]⟩

/-- Witness for C6 on a two-file directory. -/
theorem load_data_concat_shape_witness :
    ((fun _ => some [fileA, fileB] : FileSystem) "data" = some (fileA :: [fileB])) ∧
    (∃ T, load_data (fun _ => some [fileA, fileB]) "data" = Except.ok T ∧
      T.columns = fileA.columns ∧
      T.rows = (fileA :: [fileB]).flatMap PTable.rows ∧
      T.rows.length = ((fileA :: [fileB]).map (fun f => f.rows.length)).sum ∧
      T.index = List.range T.rows.length) :=
  ⟨rfl, load_data_concat_shape (fun _ => some [fileA, fileB]) "data" fileA [fileB]
    rfl (by decide) (by decide) (by decide)⟩

/-- C9: the Downcaster never mutates a non-numeric column — at its position
the column is identical afterwards, type and values included. -/
theorem downcast_nonnumeric_untouched (df : DataFrame) (i : Nat) (c : Column)
    (hc : df.get? i = some c) (hnn : c.dtype.isNumeric = false) :
    (downcast df).get? i = some c := by
  unfold downcast
  rw [List.get?_map, hc]
  simp [downcastCol_not_numeric hnn]

/-- Witness for C9 on a one-column object dataframe. -/
theorem downcast_nonnumeric_untouched_witness :
    (([⟨"s", DType.object, [1, 2]⟩] : DataFrame).get? 0 =
        some ⟨"s", DType.object, [1, 2]⟩) ∧
    (DType.object.isNumeric = false) ∧
    (downcast [⟨"s", DType.object, [1, 2]⟩]).get? 0 =
      some ⟨"s", DType.object, [1, 2]⟩ :=
  ⟨rfl, rfl, downcast_nonnumeric_untouched [⟨"s", DType.object, [1, 2]⟩] 0
    ⟨"s", DType.object, [1, 2]⟩ rfl rfl⟩

/-- C3: a numeric column whose observed range fits no candidate width of its
catalog is left unchanged — type and values — while every other column is
still processed, and `downcast` is total: the per-column failure never
escapes the call. -/
theorem downcast_unfit_column_skipped (df : DataFrame) (i : Nat) (c : Column)
    (cmin cmax : Int) (e : Int × Int)
    (hc : df.get? i = some c) (hnum : c.dtype.isNumeric = true)
    (hmin : listMin c.values = some cmin) (hmax : listMax c.values = some cmax)
    (herr : get_downcast_type (dtypeCatalog c.dtype) cmin cmax = Except.error e) :
    (downcast df).get? i = some c ∧
    ∀ j, (downcast df).get? j = (df.get? j).map downcastCol := by
  have hunch : downcastCol c = c := by
    rcases numeric_cases hnum with hint | hfl
    · have hfl2 : c.dtype.isFloat = false := by
        cases hd : c.dtype <;> simp_all [DType.isInteger, DType.isFloat]
      have hcat : dtypeCatalog c.dtype = map_int := by
        simp [dtypeCatalog, hint, hfl2]
      rw [hcat] at herr
      exact downcastCol_int_err hint hmin hmax herr
    · have hint2 := isFloat_not_isInteger hfl
      have hcat : dtypeCatalog c.dtype = map_float := by
        simp [dtypeCatalog, hint2]
      rw [hcat] at herr
      exact downcastCol_float_err hfl hmin hmax herr
  constructor
  · unfold downcast
    rw [List.get?_map, hc]
    simp [hunch]
  · intro j
    unfold downcast
    rw [List.get?_map]

/-- Witness for C3: a `uint64` column reaching `2 ^ 63` fits no signed
width, is left unchanged, and the remaining column is still downcast. -/
theorem downcast_unfit_column_skipped_witness :
    (([⟨"big", DType.uint64, [0, 2 ^ 63]⟩, ⟨"ok", DType.int64, [1, 2]⟩] :
        DataFrame).get? 0 = some ⟨"big", DType.uint64, [0, 2 ^ 63]⟩) ∧
    (get_downcast_type (dtypeCatalog DType.uint64) 0 (2 ^ 63) =
        Except.error (0, 2 ^ 63)) ∧
    ((downcast [⟨"big", DType.uint64, [0, 2 ^ 63]⟩, ⟨"ok", DType.int64, [1, 2]⟩]).get? 0 =
        some ⟨"big", DType.uint64, [0, 2 ^ 63]⟩ ∧
      ∀ j, (downcast [⟨"big", DType.uint64, [0, 2 ^ 63]⟩,
          ⟨"ok", DType.int64, [1, 2]⟩]).get? j =
        (([⟨"big", DType.uint64, [0, 2 ^ 63]⟩, ⟨"ok", DType.int64, [1, 2]⟩] :
          DataFrame).get? j).map downcastCol) :=
  ⟨rfl, by decide,
    downcast_unfit_column_skipped
      [⟨"big", DType.uint64, [0, 2 ^ 63]⟩, ⟨"ok", DType.int64, [1, 2]⟩] 0
      ⟨"big", DType.uint64, [0, 2 ^ 63]⟩ 0 (2 ^ 63) (0, 2 ^ 63)
      rfl rfl (by decide) (by decide) (by decide)⟩

/-! ### Per-column behaviour of the downcaster -/

lemma bool_not_true {b : Bool} (h : ¬ b = true) : b = false := by
  cases b
  · rfl
  · exact absurd rfl h

lemma downcastCol_cases (c : Column) (hWF : WellFormedCol c) :
    (downcastCol c).name = c.name ∧
    (downcastCol c).values.length = c.values.length ∧
    (c.dtype.isNumeric = false → downcastCol c = c) ∧
    (c.dtype.isNumeric = true →
      ∀ cmin cmax, listMin c.values = some cmin → listMax c.values = some cmax →
        dtypeMin (downcastCol c).dtype ≤ cmin ∧ cmax ≤ dtypeMax (downcastCol c).dtype) := by
  by_cases hnum : c.dtype.isNumeric = true
  case neg =>
    have hnn : c.dtype.isNumeric = false := bool_not_true hnum
    rw [downcastCol_not_numeric hnn]
    exact ⟨rfl, rfl, fun _ => rfl, fun h => absurd h hnum⟩
  case pos =>
    by_cases hval : c.values = []
    · rw [downcastCol_nil hval]
      refine ⟨rfl, rfl, fun _ => rfl, ?_⟩
      intro _ cmin cmax hm hM
      rw [hval] at hm
      simp [listMin] at hm
    · obtain ⟨v, vs, hval2⟩ := List.exists_cons_of_ne_nil hval
      have hm0 : listMin c.values = some (vs.foldl min v) := by
        rw [hval2]
        rfl
      have hM0 : listMax c.values = some (vs.foldl max v) := by
        rw [hval2]
        rfl
      rcases numeric_cases hnum with hint | hfl
      · cases hget : get_downcast_type map_int (vs.foldl min v) (vs.foldl max v) with
        | ok d =>
            rw [downcastCol_int_ok hint hm0 hM0 hget]
            refine ⟨rfl, by simp, fun hf => absurd hnum (by simp [hf]), ?_⟩
            intro _ cmin cmax hm hM
            rw [hm0] at hm
            injection hm with hm
            rw [hM0] at hM
            injection hM with hM
            subst hm
            subst hM
            exact get_downcast_type_ok_fits hget
        | error e =>
            rw [downcastCol_int_err hint hm0 hM0 hget]
            refine ⟨rfl, rfl, fun _ => rfl, ?_⟩
            intro _ cmin cmax hm hM
            rw [hm0] at hm
            injection hm with hm
            rw [hM0] at hM
            injection hM with hM
            subst hm
            subst hM
            have hWF2 := hWF hnum
            exact ⟨(hWF2 _ (listMin_mem hm0)).2.1, (hWF2 _ (listMax_mem hM0)).2.2⟩
      · cases hget : get_downcast_type map_float (vs.foldl min v) (vs.foldl max v) with
        | ok d =>
            rw [downcastCol_float_ok hfl hm0 hM0 hget]
            refine ⟨rfl, by simp, fun hf => absurd hnum (by simp [hf]), ?_⟩
            intro _ cmin cmax hm hM
            rw [hm0] at hm
            injection hm with hm
            rw [hM0] at hM
            injection hM with hM
            subst hm
            subst hM
            exact get_downcast_type_ok_fits hget
        | error e =>
            rw [downcastCol_float_err hfl hm0 hM0 hget]
            refine ⟨rfl, rfl, fun _ => rfl, ?_⟩
            intro _ cmin cmax hm hM
            rw [hm0] at hm
            injection hm with hm
            rw [hM0] at hM
            injection hM with hM
            subst hm
            subst hM
            have hWF2 := hWF hnum
            exact ⟨(hWF2 _ (listMin_mem hm0)).2.1, (hWF2 _ (listMax_mem hM0)).2.2⟩

/-- C2: on a well-formed table, after `downcast` every numeric column's
resulting dtype has a representable range containing that column's observed
minimum and maximum, non-numeric columns are untouched, and the table shape —
column count, column names and order, and per-column row count — is
unchanged. -/
theorem downcast_preserves_invariants (df : DataFrame) (hWF : WellFormed df) :
    (downcast df).map Column.name = df.map Column.name ∧
    (downcast df).length = df.length ∧
    ∀ i c c2, df.get? i = some c → (downcast df).get? i = some c2 →
      c2.values.length = c.values.length ∧
      (c.dtype.isNumeric = false → c2 = c) ∧
      (c.dtype.isNumeric = true →
        ∀ cmin cmax, listMin c.values = some cmin → listMax c.values = some cmax →
          dtypeMin c2.dtype ≤ cmin ∧ cmax ≤ dtypeMax c2.dtype) := by
  refine ⟨?_, by simp [downcast], ?_⟩
  · unfold downcast
    rw [List.map_map]
    apply List.map_congr_left
    intro c hc
    exact (downcastCol_cases c (hWF c hc)).1
  · intro i c c2 hc hc2
    unfold downcast at hc2
    rw [List.get?_map, hc] at hc2
    injection hc2 with hc2
    subst hc2
    have hmem : c ∈ df := List.get?_mem hc
    obtain ⟨h1, h2, h3, h4⟩ := downcastCol_cases c (hWF c hmem)
    exact ⟨h2, h3, h4⟩

/-- Witness for C2 on a three-column table holding integer, float and object
data. -/
theorem downcast_preserves_invariants_witness :
    WellFormed [⟨"i", DType.int64, [-100, 100]⟩, ⟨"f", DType.float64, [0, 4099]⟩,
      ⟨"s", DType.object, [7]⟩] ∧
    ((downcast [⟨"i", DType.int64, [-100, 100]⟩, ⟨"f", DType.float64, [0, 4099]⟩,
        ⟨"s", DType.object, [7]⟩]).map Column.name =
      ([⟨"i", DType.int64, [-100, 100]⟩, ⟨"f", DType.float64, [0, 4099]⟩,
        ⟨"s", DType.object, [7]⟩] : DataFrame).map Column.name ∧
    (downcast [⟨"i", DType.int64, [-100, 100]⟩, ⟨"f", DType.float64, [0, 4099]⟩,
        ⟨"s", DType.object, [7]⟩]).length =
      ([⟨"i", DType.int64, [-100, 100]⟩, ⟨"f", DType.float64, [0, 4099]⟩,
        ⟨"s", DType.object, [7]⟩] : DataFrame).length ∧
    ∀ i c c2,
      ([⟨"i", DType.int64, [-100, 100]⟩, ⟨"f", DType.float64, [0, 4099]⟩,
        ⟨"s", DType.object, [7]⟩] : DataFrame).get? i = some c →
      (downcast [⟨"i", DType.int64, [-100, 100]⟩, ⟨"f", DType.float64, [0, 4099]⟩,
        ⟨"s", DType.object, [7]⟩]).get? i = some c2 →
      c2.values.length = c.values.length ∧
      (c.dtype.isNumeric = false → c2 = c) ∧
      (c.dtype.isNumeric = true →
        ∀ cmin cmax, listMin c.values = some cmin → listMax c.values = some cmax →
          dtypeMin c2.dtype ≤ cmin ∧ cmax ≤ dtypeMax c2.dtype)) :=
  ⟨by decide, downcast_preserves_invariants
    [⟨"i", DType.int64, [-100, 100]⟩, ⟨"f", DType.float64, [0, 4099]⟩,
      ⟨"s", DType.object, [7]⟩] (by decide)⟩

/-! ### Stability of the downcaster: helper lemmas -/

lemma get_int_ok_isInteger {a b : Int} {d : DType}
    (h : get_downcast_type map_int a b = Except.ok d) : d.isInteger = true := by
  rw [get_int_eval] at h
  split_ifs at h <;> first
    | (injection h with h2; subst h2; rfl)
    | cases h

lemma downcastCol_int_fixed {nm : String} {d : DType} {l : List Int}
    (hint : d.isInteger = true) (hne : l ≠ [])
    (hfix : ∀ w ∈ l, castValue d w = w)
    (hsel : ∀ a b, listMin l = some a → listMax l = some b →
      get_downcast_type map_int a b = Except.ok d) :
    downcastCol ⟨nm, d, l⟩ = ⟨nm, d, l⟩ := by
  obtain ⟨v, vs, rfl⟩ := List.exists_cons_of_ne_nil hne
  have hm : listMin (v :: vs) = some (vs.foldl min v) := rfl
  have hM : listMax (v :: vs) = some (vs.foldl max v) := rfl
  have hget := hsel _ _ hm hM
  rw [downcastCol_int_ok hint hm hM hget]
  rw [map_eq_self_of_mem hfix]

lemma downcastCol_float_fixed {nm : String} {d : DType} {l : List Int}
    (hfl : d.isFloat = true) (hne : l ≠ [])
    (hfix : ∀ w ∈ l, castValue d w = w)
    (hsel : ∀ a b, listMin l = some a → listMax l = some b →
      get_downcast_type map_float a b = Except.ok d) :
    downcastCol ⟨nm, d, l⟩ = ⟨nm, d, l⟩ := by
  obtain ⟨v, vs, rfl⟩ := List.exists_cons_of_ne_nil hne
  have hm : listMin (v :: vs) = some (vs.foldl min v) := rfl
  have hM : listMax (v :: vs) = some (vs.foldl max v) := rfl
  have hget := hsel _ _ hm hM
  rw [downcastCol_float_ok hfl hm hM hget]
  rw [map_eq_self_of_mem hfix]

lemma float16_bound_dvd :
    (2 : Int) ^ (natLog2 (Int.natAbs 65504) + 1 - 11) ∣ 65504 := by
  have hna : Int.natAbs 65504 = 65504 := rfl
  have hlog : natLog2 65504 = 15 := natLog2_eq_of (by norm_num) (by norm_num)
  rw [hna, hlog]
  norm_num

lemma float32_bound_dvd :
    (2 : Int) ^ (natLog2 (Int.natAbs 340282346638528859811704183484516925440) + 1 - 24) ∣
      340282346638528859811704183484516925440 := by
  have hna : Int.natAbs 340282346638528859811704183484516925440 =
      340282346638528859811704183484516925440 := rfl
  have hlog : natLog2 340282346638528859811704183484516925440 = 127 :=
    natLog2_eq_of (by norm_num) (by norm_num)
  rw [hna, hlog]
  exact ⟨2 ^ 24 - 1, by norm_num⟩

lemma isFloat_cases {d : DType} (h : d.isFloat = true) :
    d = DType.float16 ∨ d = DType.float32 ∨ d = DType.float64 := by
  cases d <;> simp_all [DType.isFloat]

lemma downcastCol_idem (c : Column) (hWF : WellFormedCol c) :
    downcastCol (downcastCol c) = downcastCol c := by
  by_cases hnum : c.dtype.isNumeric = true
  case neg =>
    have hnn := bool_not_true hnum
    rw [downcastCol_not_numeric hnn, downcastCol_not_numeric hnn]
  case pos =>
    by_cases hval : c.values = []
    · rw [downcastCol_nil hval, downcastCol_nil hval]
    · obtain ⟨v, vs, hval2⟩ := List.exists_cons_of_ne_nil hval
      have hm0 : listMin c.values = some (vs.foldl min v) := by
        rw [hval2]
        rfl
      have hM0 : listMax c.values = some (vs.foldl max v) := by
        rw [hval2]
        rfl
      have hlb := listMin_le hm0
      have hub := le_listMax hM0
      have hminmem := listMin_mem hm0
      have hmaxmem := listMax_mem hM0
      rcases numeric_cases hnum with hint | hfl
      · cases hget : get_downcast_type map_int (vs.foldl min v) (vs.foldl max v) with
        | ok d =>
            have hdint := get_int_ok_isInteger hget
            obtain ⟨hf1, hf2⟩ := get_downcast_type_ok_fits hget
            have hfix : ∀ w ∈ c.values, castValue d w = w := by
              intro w hw
              exact castValue_int_eq_self hdint
                (le_trans hf1 (hlb w hw)) (le_trans (hub w hw) hf2)
            have hc1 : downcastCol c = ⟨c.name, d, c.values⟩ := by
              rw [downcastCol_int_ok hint hm0 hM0 hget, map_eq_self_of_mem hfix]
            rw [hc1]
            apply downcastCol_int_fixed hdint
              (by rw [hval2]; exact List.cons_ne_nil v vs) hfix
            intro a b ha hb
            rw [hm0] at ha
            injection ha with ha
            rw [hM0] at hb
            injection hb with hb
            rw [← ha, ← hb]
            exact hget
        | error e =>
            have hc1 := downcastCol_int_err hint hm0 hM0 hget
            rw [hc1, hc1]
      · by_cases h16 : -65504 ≤ vs.foldl min v ∧ vs.foldl max v ≤ 65504
        · have hget : get_downcast_type map_float (vs.foldl min v) (vs.foldl max v) =
              Except.ok DType.float16 := by
            rw [get_float_eval, if_pos h16]
          have hbound : ∀ w ∈ c.values.map (castValue DType.float16),
              -65504 ≤ w ∧ w ≤ 65504 := by
            intro w hw
            obtain ⟨u, hu, rfl⟩ := List.mem_map.mp hw
            exact floatCast_abs_le (by norm_num) (by norm_num) float16_bound_dvd
              (le_trans h16.1 (hlb u hu)) (le_trans (hub u hu) h16.2)
          rw [downcastCol_float_ok hfl hm0 hM0 hget]
          apply downcastCol_float_fixed (by rfl)
            (by rw [hval2]; simp)
            (fun w hw => by
              obtain ⟨u, hu, rfl⟩ := List.mem_map.mp hw
              exact floatCast_idem 11 (by norm_num) u)
          intro a b ha hb
          have h16b : -65504 ≤ a ∧ b ≤ 65504 :=
            ⟨(hbound a (listMin_mem ha)).1, (hbound b (listMax_mem hb)).2⟩
          rw [get_float_eval, if_pos h16b]
        · by_cases h32 : -340282346638528859811704183484516925440 ≤ vs.foldl min v ∧
              vs.foldl max v ≤ 340282346638528859811704183484516925440
          · have hget : get_downcast_type map_float (vs.foldl min v) (vs.foldl max v) =
                Except.ok DType.float32 := by
              rw [get_float_eval, if_neg h16, if_pos h32]
            have hbound : ∀ w ∈ c.values.map (castValue DType.float32),
                -340282346638528859811704183484516925440 ≤ w ∧
                  w ≤ 340282346638528859811704183484516925440 := by
              intro w hw
              obtain ⟨u, hu, rfl⟩ := List.mem_map.mp hw
              exact floatCast_abs_le (by norm_num) (by norm_num) float32_bound_dvd
                (le_trans h32.1 (hlb u hu)) (le_trans (hub u hu) h32.2)
            have hesc : ∀ a b,
                listMin (c.values.map (castValue DType.float32)) = some a →
                listMax (c.values.map (castValue DType.float32)) = some b →
                ¬(-65504 ≤ a ∧ b ≤ 65504) := by
              intro a b ha hb hcon
              rcases not_and_or.mp h16 with hbad | hbad
              · push_neg at hbad
                have hcast : castValue DType.float32 (vs.foldl min v) ∈
                    c.values.map (castValue DType.float32) :=
                  List.mem_map_of_mem _ hminmem
                have hlt : castValue DType.float32 (vs.foldl min v) < -65504 :=
                  floatCast_lt_of_lt_neg (by norm_num) (by norm_num) (by norm_num) hbad
                have hle := listMin_le ha _ hcast
                have := hcon.1
                linarith
              · push_neg at hbad
                have hcast : castValue DType.float32 (vs.foldl max v) ∈
                    c.values.map (castValue DType.float32) :=
                  List.mem_map_of_mem _ hmaxmem
                have hlt : 65504 < castValue DType.float32 (vs.foldl max v) :=
                  lt_floatCast_of_lt (by norm_num) (by norm_num) (by norm_num) hbad
                have hle := le_listMax hb _ hcast
                have := hcon.2
                linarith
            rw [downcastCol_float_ok hfl hm0 hM0 hget]
            apply downcastCol_float_fixed (by rfl)
              (by rw [hval2]; simp)
              (fun w hw => by
                obtain ⟨u, hu, rfl⟩ := List.mem_map.mp hw
                exact floatCast_idem 24 (by norm_num) u)
            intro a b ha hb
            have h32b : -340282346638528859811704183484516925440 ≤ a ∧
                b ≤ 340282346638528859811704183484516925440 :=
              ⟨(hbound a (listMin_mem ha)).1, (hbound b (listMax_mem hb)).2⟩
            rw [get_float_eval, if_neg (hesc a b ha hb), if_pos h32b]
          · have hWF2 := hWF hnum
            rcases isFloat_cases hfl with hd | hd | hd
            · exfalso
              apply h16
              have r1 := hWF2 _ hminmem
              have r2 := hWF2 _ hmaxmem
              rw [hd] at r1 r2
              exact ⟨r1.2.1, r2.2.2⟩
            · exfalso
              apply h32
              have r1 := hWF2 _ hminmem
              have r2 := hWF2 _ hmaxmem
              rw [hd] at r1 r2
              exact ⟨r1.2.1, r2.2.2⟩
            · have r1 := hWF2 _ hminmem
              have r2 := hWF2 _ hmaxmem
              rw [hd] at r1 r2
              have hget : get_downcast_type map_float (vs.foldl min v) (vs.foldl max v) =
                  Except.ok DType.float64 := by
                rw [get_float_eval, if_neg h16, if_neg h32]
                exact if_pos ⟨r1.2.1, r2.2.2⟩
              have hfix64 : ∀ w ∈ c.values, castValue DType.float64 w = w := by
                intro w hw
                have hrep := (hWF2 w hw).1
                rwa [hd] at hrep
              have hc1 : downcastCol c = c := by
                rw [downcastCol_float_ok hfl hm0 hM0 hget,
                  map_eq_self_of_mem hfix64, ← hd]
              rw [hc1, hc1]

unseal Rat.add Rat.sub Rat.mul Rat.inv in
/-- Counterexample to C5 as stated, over exact rational cells: a well-formed
float64 column holding 0 and `65504 + 2 ^ (-10)` exceeds the float16 bound,
so the first run selects float32 — and the float32 cast (spacing `2 ^ (-8)`
at that magnitude) rounds the maximum down to exactly 65504, the float16
boundary.  The second run therefore narrows the column again, to float16:
running the Downcaster twice does not yield the same column types as running
it once. -/
theorem downcastQ_not_idempotent :
    WellFormedColQ ⟨"x", DType.float64, [0, 65504 + 1 / 1024]⟩ ∧
    downcastQ [⟨"x", DType.float64, [0, 65504 + 1 / 1024]⟩] =
      [⟨"x", DType.float32, [0, 65504]⟩] ∧
    downcastQ (downcastQ [⟨"x", DType.float64, [0, 65504 + 1 / 1024]⟩]) =
      [⟨"x", DType.float16, [0, 65504]⟩] ∧
    downcastQ (downcastQ [⟨"x", DType.float64, [0, 65504 + 1 / 1024]⟩]) ≠
      downcastQ [⟨"x", DType.float64, [0, 65504 + 1 / 1024]⟩] := by
  decide

/-- C5 (amended): over integer-valued cells — the domain of the integer-cell
model, where every float cast within the selected range is bounded by the
range check — running the Downcaster twice on a well-formed table yields
exactly the same column types and values as running it once.  With
fractional float cells the program is not idempotent: see the counterexample
above, where a cast rounds the observed maximum onto a smaller type's
boundary and the second run narrows further. -/
theorem downcast_idempotent (df : DataFrame) (hWF : WellFormed df) :
    downcast (downcast df) = downcast df := by
  unfold downcast
  rw [List.map_map]
  apply List.map_congr_left
  intro c hc
  show downcastCol (downcastCol c) = downcastCol c
  exact downcastCol_idem c (hWF c hc)

/-- Witness for C5 on a table with an integer column and a float column whose
narrowing rounds a value. -/
theorem downcast_idempotent_witness :
    WellFormed [⟨"i", DType.int64, [-100, 100]⟩, ⟨"f", DType.float64, [0, 4099]⟩] ∧
    downcast (downcast [⟨"i", DType.int64, [-100, 100]⟩,
        ⟨"f", DType.float64, [0, 4099]⟩]) =
      downcast [⟨"i", DType.int64, [-100, 100]⟩, ⟨"f", DType.float64, [0, 4099]⟩] :=
  ⟨by decide, downcast_idempotent
    [⟨"i", DType.int64, [-100, 100]⟩, ⟨"f", DType.float64, [0, 4099]⟩] (by decide)⟩

/-- Counterexample to C4 as stated: a well-formed float64 column with values
0 and 4099 fits the float16 range, so the Downcaster selects float16 and the
cast rounds 4099 up to 4100 — the column maximum is altered by narrowing. -/
theorem downcast_float_max_changed :
    WellFormedCol ⟨"x", DType.float64, [0, 4099]⟩ ∧
    listMax (⟨"x", DType.float64, [0, 4099]⟩ : Column).values = some 4099 ∧
    downcast [⟨"x", DType.float64, [0, 4099]⟩] = [⟨"x", DType.float16, [0, 4100]⟩] ∧
    listMax ((⟨"x", DType.float16, [0, 4100]⟩ : Column).values) = some 4100 := by
  decide

/-! ### Width lemmas for the amended C4 -/

lemma get_int_ok_size_le8 {a b : Int} {d : DType}
    (h : get_downcast_type map_int a b = Except.ok d) : dtypeSize d ≤ 8 := by
  rw [get_int_eval] at h
  split_ifs at h <;> first
    | (injection h with h2; subst h2; decide)
    | cases h

lemma get_float_ok_size_le8 {a b : Int} {d : DType}
    (h : get_downcast_type map_float a b = Except.ok d) : dtypeSize d ≤ 8 := by
  rw [get_float_eval] at h
  split_ifs at h <;> first
    | (injection h with h2; subst h2; decide)
    | cases h

lemma isInteger_cases {d : DType} (h : d.isInteger = true) :
    d = DType.int8 ∨ d = DType.int16 ∨ d = DType.int32 ∨ d = DType.int64 ∨
      d = DType.uint64 := by
  cases d <;> simp_all [DType.isInteger]

lemma downcastCol_width_int (c : Column) (hWF : WellFormedCol c) :
    dtypeSize (downcastCol c).dtype ≤ dtypeSize c.dtype ∧
    (c.dtype.isInteger = true → (downcastCol c).values = c.values) := by
  by_cases hnum : c.dtype.isNumeric = true
  case neg =>
    rw [downcastCol_not_numeric (bool_not_true hnum)]
    exact ⟨le_refl _, fun _ => rfl⟩
  case pos =>
    by_cases hval : c.values = []
    · rw [downcastCol_nil hval]
      exact ⟨le_refl _, fun _ => rfl⟩
    · obtain ⟨v, vs, hval2⟩ := List.exists_cons_of_ne_nil hval
      have hm0 : listMin c.values = some (vs.foldl min v) := by
        rw [hval2]
        rfl
      have hM0 : listMax c.values = some (vs.foldl max v) := by
        rw [hval2]
        rfl
      have hWF2 := hWF hnum
      have r1 := hWF2 _ (listMin_mem hm0)
      have r2 := hWF2 _ (listMax_mem hM0)
      rcases numeric_cases hnum with hint | hfl
      · cases hget : get_downcast_type map_int (vs.foldl min v) (vs.foldl max v) with
        | ok d =>
            have hdint := get_int_ok_isInteger hget
            obtain ⟨hf1, hf2⟩ := get_downcast_type_ok_fits hget
            have hfix : ∀ w ∈ c.values, castValue d w = w := by
              intro w hw
              exact castValue_int_eq_self hdint
                (le_trans hf1 (listMin_le hm0 w hw))
                (le_trans (le_listMax hM0 w hw) hf2)
            rw [downcastCol_int_ok hint hm0 hM0 hget]
            refine ⟨?_, fun _ => map_eq_self_of_mem hfix⟩
            rcases isInteger_cases hint with hd | hd | hd | hd | hd
            · rw [hd] at r1 r2
              have ha : -(2 ^ 7 : Int) ≤ vs.foldl min v := r1.2.1
              have hb : vs.foldl max v ≤ (2 ^ 7 : Int) - 1 := r2.2.2
              rw [get_int_eval, if_pos ⟨ha, hb⟩] at hget
              injection hget with h2
              subst h2
              rw [hd]
            · rw [hd] at r1 r2
              have ha : -(2 ^ 15 : Int) ≤ vs.foldl min v := r1.2.1
              have hb : vs.foldl max v ≤ (2 ^ 15 : Int) - 1 := r2.2.2
              rw [get_int_eval] at hget
              by_cases h1 : -(2 ^ 7 : Int) ≤ vs.foldl min v ∧
                  vs.foldl max v ≤ (2 ^ 7 : Int) - 1
              · rw [if_pos h1] at hget
                injection hget with h2
                subst h2
                rw [hd]
                norm_num [dtypeSize]
              · rw [if_neg h1, if_pos ⟨ha, hb⟩] at hget
                injection hget with h2
                subst h2
                rw [hd]
            · rw [hd] at r1 r2
              have ha : -(2 ^ 31 : Int) ≤ vs.foldl min v := r1.2.1
              have hb : vs.foldl max v ≤ (2 ^ 31 : Int) - 1 := r2.2.2
              rw [get_int_eval] at hget
              by_cases h1 : -(2 ^ 7 : Int) ≤ vs.foldl min v ∧
                  vs.foldl max v ≤ (2 ^ 7 : Int) - 1
              · rw [if_pos h1] at hget
                injection hget with h2
                subst h2
                rw [hd]
                norm_num [dtypeSize]
              · by_cases h2c : -(2 ^ 15 : Int) ≤ vs.foldl min v ∧
                    vs.foldl max v ≤ (2 ^ 15 : Int) - 1
                · rw [if_neg h1, if_pos h2c] at hget
                  injection hget with h2
                  subst h2
                  rw [hd]
                  norm_num [dtypeSize]
                · rw [if_neg h1, if_neg h2c, if_pos ⟨ha, hb⟩] at hget
                  injection hget with h2
                  subst h2
                  rw [hd]
            · rw [hd]
              exact get_int_ok_size_le8 hget
            · rw [hd]
              exact get_int_ok_size_le8 hget
        | error e =>
            rw [downcastCol_int_err hint hm0 hM0 hget]
            exact ⟨le_refl _, fun _ => rfl⟩
      · have hintf := isFloat_not_isInteger hfl
        cases hget : get_downcast_type map_float (vs.foldl min v) (vs.foldl max v) with
        | ok d =>
            rw [downcastCol_float_ok hfl hm0 hM0 hget]
            refine ⟨?_, fun hi => absurd hi (by simp [hintf])⟩
            rcases isFloat_cases hfl with hd | hd | hd
            · rw [hd] at r1 r2
              have ha : -(65504 : Int) ≤ vs.foldl min v := r1.2.1
              have hb : vs.foldl max v ≤ (65504 : Int) := r2.2.2
              rw [get_float_eval, if_pos ⟨ha, hb⟩] at hget
              injection hget with h2
              subst h2
              rw [hd]
            · rw [hd] at r1 r2
              have ha : -(340282346638528859811704183484516925440 : Int) ≤
                  vs.foldl min v := r1.2.1
              have hb : vs.foldl max v ≤
                  (340282346638528859811704183484516925440 : Int) := r2.2.2
              rw [get_float_eval] at hget
              by_cases h1 : -(65504 : Int) ≤ vs.foldl min v ∧
                  vs.foldl max v ≤ (65504 : Int)
              · rw [if_pos h1] at hget
                injection hget with h2
                subst h2
                rw [hd]
                norm_num [dtypeSize]
              · rw [if_neg h1, if_pos ⟨ha, hb⟩] at hget
                injection hget with h2
                subst h2
                rw [hd]
            · rw [hd]
              exact get_float_ok_size_le8 hget
        | error e =>
            rw [downcastCol_float_err hfl hm0 hM0 hget]
            exact ⟨le_refl _, fun _ => rfl⟩

/-- C4 (amended): after downcasting a well-formed table, every column's new
byte width is at most its original byte width, and for integer columns the
stored values — hence the column minimum and maximum — are unchanged.
Floating-point columns may instead have their values rounded to the selected
narrower type, which is the part of the original claim refuted by the
counterexample. -/
theorem downcast_width_le_int_values_preserved (df : DataFrame) (hWF : WellFormed df) :
    ∀ i c c2, df.get? i = some c → (downcast df).get? i = some c2 →
      dtypeSize c2.dtype ≤ dtypeSize c.dtype ∧
      (c.dtype.isInteger = true → c2.values = c.values) := by
  intro i c c2 hc hc2
  unfold downcast at hc2
  rw [List.get?_map, hc] at hc2
  injection hc2 with hc2
  subst hc2
  exact downcastCol_width_int c (hWF c (List.get?_mem hc))

/-- Witness for the amended C4 on a table with an int64 column, a float64
column, and an object column. -/
theorem downcast_width_le_int_values_preserved_witness :
    WellFormed [⟨"a", DType.int64, [5, 7]⟩, ⟨"b", DType.float64, [0, 4099]⟩] ∧
    (∀ i c c2,
      ([⟨"a", DType.int64, [5, 7]⟩, ⟨"b", DType.float64, [0, 4099]⟩] :
        DataFrame).get? i = some c →
      (downcast [⟨"a", DType.int64, [5, 7]⟩, ⟨"b", DType.float64, [0, 4099]⟩]).get? i =
        some c2 →
      dtypeSize c2.dtype ≤ dtypeSize c.dtype ∧
      (c.dtype.isInteger = true → c2.values = c.values)) :=
  ⟨by decide, downcast_width_le_int_values_preserved
    [⟨"a", DType.int64, [5, 7]⟩, ⟨"b", DType.float64, [0, 4099]⟩] (by decide)⟩

end RecSys
